import Mathlib

/-!
# Verification of the situation-monitor core

Shallow embedding of the clustering, health-tracking, scheduling and URL
canonicalization code of the situation-monitor repository, together with
proofs and refutations of the specification claims about it.

Modelling conventions, used throughout:

* SQLite `TEXT` timestamps (ISO-8601 UTC, fixed width) compare
  lexicographically exactly as instants, so timestamps are modelled as
  integer seconds (`Int`).
* SQLite `REAL` coordinates and Python floats are modelled as rationals
  (`ℚ`); serialization of a bbox to a comma-joined string and reparsing via
  `float(...)` is a lossless round trip and is modelled as the identity.
* Python `str.casefold` / `str.lower` are modelled character-wise by ASCII
  lowercasing, with which they agree on ASCII text.
* Opaque pure functions that the claims do not depend on (the `blake2b`
  64-bit token digest, the floating-point haversine distance) are taken as
  parameters of the model.
-/

/-! ## Signed/unsigned 64-bit SimHash reinterpretation (clusterer.py) -/

/-- `_u64_to_i64` from `src/cluster/clusterer.py`: reinterpret an unsigned
64-bit value as a signed one (values `≥ 2^63` map to `value - 2^64`). -/
def u64_to_i64 (value : Nat) : Int :=
  if value ≥ 2 ^ 63 then (value : Int) - 2 ^ 64 else (value : Int)

/-- `_i64_to_u64` from `src/cluster/clusterer.py`: `value & ((1 << 64) - 1)`
on a Python int, i.e. the value modulo `2^64` (two's complement view). -/
def i64_to_u64 (value : Int) : Nat :=
  (value % 2 ^ 64).toNat

/-- The Python-side SimHash bucket `(u >> 48) & 0xFFFF` computed in
`assign_item_to_incident` (clusterer.py). -/
def pyBucket (u : Nat) : Nat :=
  (u >>> 48) &&& 0xFFFF

/-- The SQL-side bucket expression `((incident_simhash >> 48) & 65535)` from
the candidate query in clusterer.py.  SQLite `>>` is an arithmetic right
shift on the signed 64-bit value, i.e. floor division by `2^48`, and
`& 65535` keeps the low 16 bits of the two's complement representation,
i.e. the value modulo `65536`. -/
def sqlBucket (s : Int) : Int :=
  (Int.fdiv s (2 ^ 48)) % 65536

/-- Population count over the low 64 bits; `int.bit_count` in Python agrees
with this on the 64-bit values the clusterer works with. -/
def bit_count64 (n : Nat) : Nat :=
  ((List.range 64).filter (fun i => n.testBit i)).length

/-- `hamming_distance` from clusterer.py: popcount of the XOR. -/
def hamming_distance (a b : Nat) : Nat :=
  bit_count64 (a ^^^ b)

/-! ## Tokenization and SimHash (clusterer.py) -/

/-- Characters matched by the regex class `[a-z0-9]`. -/
def isTokenChar (c : Char) : Bool :=
  (97 ≤ c.toNat && c.toNat ≤ 122) || (48 ≤ c.toNat && c.toNat ≤ 57)

/-- Maximal runs of token characters: the behaviour of
`re.findall(r"[a-z0-9]+", ·)`.  `acc` is the current run, reversed. -/
def tokenRuns : List Char → List Char → List (List Char)
  | [], acc => if acc.isEmpty then [] else [acc.reverse]
  | c :: cs, acc =>
    if isTokenChar c then tokenRuns cs (c :: acc)
    else if acc.isEmpty then tokenRuns cs [] else acc.reverse :: tokenRuns cs []

/-- `re.findall(r"[a-z0-9]+", text.casefold())`, the tokenizer shared by
`simhash64`, `_token_jaccard` and the token-signature code in clusterer.py. -/
def pyTokens (text : String) : List String :=
  (tokenRuns (text.data.map Char.toLower) []).map (fun cs => String.mk cs)

/-- The insertion-ordered token-count dictionary built by `simhash64`. -/
def countTokens (tokens : List String) : List (String × Nat) :=
  tokens.foldl
    (fun acc t =>
      if acc.any (fun p => p.1 == t) then
        acc.map (fun p => if p.1 == t then (p.1, p.2 + 1) else p)
      else acc ++ [(t, 1)])
    []

/-- `simhash64` from clusterer.py, parameterized by the 64-bit token hash
(the keyless `blake2b` digest, an opaque pure function for this model):
empty token list returns 0, otherwise per-bit weighted voting. -/
def simhash64 (tokenHash : String → Nat) (text : String) : Nat :=
  let tokens := pyTokens text
  if tokens.isEmpty then 0
  else
    let weights := countTokens tokens
    let vector : List Int :=
      weights.foldl
        (fun vec tw =>
          (List.range 64).map (fun bit =>
            if (tokenHash tw.1).testBit bit then vec.getD bit 0 + tw.2
            else vec.getD bit 0 - tw.2))
        (List.replicate 64 0)
    ((List.range 64).foldl
      (fun result bit =>
        if 0 < vector.getD bit 0 then result ||| (1 <<< bit) else result)
      0) &&& (2 ^ 64 - 1)

/-! ## C9: signed/unsigned reinterpretation and bucket consistency -/

/-- C9: the signed/unsigned SimHash reinterpretations are mutually inverse
bijections between unsigned 64-bit values and signed 64-bit values (values
`≥ 2^63` map to `value - 2^64` and back), and for every unsigned 64-bit `u`
the SQL expression `((u64_to_i64 u) >> 48) & 65535` (arithmetic shift on the
signed view) equals the Python bucket `(u >> 48) & 0xFFFF`. -/
theorem simhash_signed_unsigned_bucket_spec :
    (∀ u : Nat, u < 2 ^ 64 →
        i64_to_u64 (u64_to_i64 u) = u ∧
        (2 ^ 63 ≤ u → u64_to_i64 u = (u : Int) - 2 ^ 64) ∧
        sqlBucket (u64_to_i64 u) = (pyBucket u : Int)) ∧
    (∀ i : Int, -(2 ^ 63) ≤ i → i < 2 ^ 63 → u64_to_i64 (i64_to_u64 i) = i) := by
  have hbucket : ∀ u : Nat, pyBucket u = u / 2 ^ 48 % 65536 := by
    intro u
    have h1 : (0xFFFF : Nat) = 2 ^ 16 - 1 := by norm_num
    rw [pyBucket, h1, Nat.and_pow_two_sub_one_eq_mod, Nat.shiftRight_eq_div_pow]
  constructor
  · intro u hu
    refine ⟨?_, ?_, ?_⟩
    · rw [u64_to_i64, i64_to_u64]
      split <;> omega
    · intro h
      rw [u64_to_i64, if_pos h]
    · rw [u64_to_i64, sqlBucket, hbucket,
        Int.fdiv_eq_ediv _ (show (0 : Int) ≤ 2 ^ 48 by norm_num)]
      split <;> omega
  · intro i h1 h2
    rw [i64_to_u64, u64_to_i64]
    split <;> omega

/-- Witness: the C9 spec at concrete inputs `u = 2^63 + 5` and `i = -3`. -/
theorem simhash_signed_unsigned_bucket_spec_witness :
    i64_to_u64 (u64_to_i64 (2 ^ 63 + 5)) = 2 ^ 63 + 5 ∧
    u64_to_i64 (i64_to_u64 (-3)) = -3 := by
  refine ⟨(simhash_signed_unsigned_bucket_spec.1 (2 ^ 63 + 5) (by norm_num)).1, ?_⟩
  exact simhash_signed_unsigned_bucket_spec.2 (-3) (by norm_num) (by norm_num)

/-! ## C10: tokenless texts hash to 0 -/

/-- C10: for every token-hash function and every pair of input strings with
no `[a-z0-9]+` token after casefolding, `simhash64` returns exactly 0, so
any two such texts have Hamming distance 0 and fall in the same SimHash
bucket. -/
theorem simhash64_no_tokens_zero (tokenHash : String → Nat) (t1 t2 : String)
    (h1 : pyTokens t1 = []) (h2 : pyTokens t2 = []) :
    simhash64 tokenHash t1 = 0 ∧
    hamming_distance (simhash64 tokenHash t1) (simhash64 tokenHash t2) = 0 ∧
    pyBucket (simhash64 tokenHash t1) = pyBucket (simhash64 tokenHash t2) := by
  have e1 : simhash64 tokenHash t1 = 0 := by
    rw [simhash64, h1]
    rfl
  have e2 : simhash64 tokenHash t2 = 0 := by
    rw [simhash64, h2]
    rfl
  refine ⟨e1, ?_, ?_⟩
  · rw [e1, e2]
    rfl
  · rw [e1, e2]

/-- Witness: the empty string and a pure punctuation/whitespace string have
no tokens, hash to 0 and collide. -/
theorem simhash64_no_tokens_zero_witness :
    simhash64 (fun _ => 0) "" = 0 ∧
    hamming_distance (simhash64 (fun _ => 0) "") (simhash64 (fun _ => 0) "?! .,") = 0 := by
  have h := simhash64_no_tokens_zero (fun _ => 0) "" "?! .," (by decide) (by decide)
  exact ⟨h.1, h.2.1⟩

/-! ## Health tracker (src/health/health.py) -/

/-- Row of the `sources` table: the fields read and written by
`record_fetch_error` and the 429 branch of the scheduler.  Timestamps are
integer seconds; NULL-able columns are `Option`. -/
structure SourceRow where
  source_id : String
  poll_interval_seconds : Nat
  consecutive_failures : Nat
  error_count : Nat
  success_count : Nat
  last_error : Option String
  next_fetch_at : Option Int
  last_error_at : Option Int
  last_fetch_at : Option Int
  last_status_code : Option Int
  last_fetch_ms : Option Int
deriving Repr, DecidableEq

/-- `compute_backoff_seconds` from health.py. -/
def compute_backoff_seconds (poll_interval_seconds : Nat)
    (consecutive_failures : Nat) : Nat :=
  if consecutive_failures ≤ 0 then poll_interval_seconds
  else min (60 * 60) (poll_interval_seconds * 2 ^ consecutive_failures)

/-- `SELECT ... FROM sources WHERE source_id = ?` (first matching row). -/
def findSource (sources : List SourceRow) (source_id : String) :
    Option SourceRow :=
  sources.find? (fun r => r.source_id == source_id)

/-- `UPDATE sources SET ... WHERE source_id = ?`: apply `f` to every row with
the given primary key (at most one in a well-formed table). -/
def updateSource (f : SourceRow → SourceRow) (source_id : String) :
    List SourceRow → List SourceRow
  | [] => []
  | r :: rs =>
    (if r.source_id == source_id then f r else r) :: updateSource f source_id rs

/-- The row mutation performed by the `UPDATE` statement of
`record_fetch_error` (health.py): `last_fetch_at`/`last_error_at` are set to
now; status code and fetch time update through `COALESCE`. -/
def recordErrorUpdate (now : Int) (status_code fetch_ms : Option Int)
    (error : String) (failures backoff : Nat) (r : SourceRow) : SourceRow :=
  { r with
      last_fetch_at := some now
      last_error_at := some now
      last_status_code := match status_code with
        | some c => some c
        | none => r.last_status_code
      last_fetch_ms := match fetch_ms with
        | some m => some m
        | none => r.last_fetch_ms
      consecutive_failures := failures
      last_error := some error
      error_count := r.error_count + 1
      next_fetch_at := some (now + backoff) }

/-- `record_fetch_error` from health.py: look up the source row, increment
`consecutive_failures` and `error_count`, store the error string, set
`next_fetch_at = now + backoff`, and return the backoff seconds.  An unknown
source id returns 300 and changes nothing. -/
def record_fetch_error (now : Int) (sources : List SourceRow)
    (source_id : String) (status_code : Option Int) (fetch_ms : Option Int)
    (error : String) : List SourceRow × Nat :=
  match findSource sources source_id with
  | none => (sources, 300)
  | some row =>
    let failures := row.consecutive_failures + 1
    let backoff := compute_backoff_seconds row.poll_interval_seconds failures
    (updateSource (recordErrorUpdate now status_code fetch_ms error failures backoff)
        source_id sources,
      backoff)

theorem findSource_updateSource (f : SourceRow → SourceRow) (sid : String)
    (h : ∀ r : SourceRow, (f r).source_id = r.source_id) :
    ∀ sources : List SourceRow,
      findSource (updateSource f sid sources) sid =
        (findSource sources sid).map f := by
  intro sources
  induction sources with
  | nil => rfl
  | cons r rs ih =>
    by_cases hr : r.source_id == sid
    · rw [updateSource, if_pos hr, findSource, List.find?]
      have : ((f r).source_id == sid) = true := by
        rw [h r]; exact hr
      rw [this, findSource, List.find?, hr]
      rfl
    · rw [updateSource, if_neg (by simp_all), findSource, List.find?]
      rw [Bool.of_not_eq_true hr, findSource, List.find?,
        Bool.of_not_eq_true hr]
      exact ih

/-- C5: for every registered source with poll interval `p` and prior
consecutive-failure count `f0`, `record_fetch_error` increments
`consecutive_failures` to `f0 + 1`, increments `error_count` by one, stores
the error string, sets `next_fetch_at` to `now + min 3600 (p * 2^(f0+1))`,
and returns that same backoff value. -/
theorem record_fetch_error_spec (now : Int) (sources : List SourceRow)
    (sid : String) (status_code fetch_ms : Option Int) (err : String)
    (row : SourceRow) (hfind : findSource sources sid = some row) :
    (record_fetch_error now sources sid status_code fetch_ms err).2 =
        min 3600 (row.poll_interval_seconds * 2 ^ (row.consecutive_failures + 1)) ∧
    ∃ row' : SourceRow,
      findSource (record_fetch_error now sources sid status_code fetch_ms err).1
          sid = some row' ∧
      row'.consecutive_failures = row.consecutive_failures + 1 ∧
      row'.error_count = row.error_count + 1 ∧
      row'.last_error = some err ∧
      row'.next_fetch_at = some (now +
        (min 3600 (row.poll_interval_seconds * 2 ^ (row.consecutive_failures + 1)) : Nat)) := by
  have hb : compute_backoff_seconds row.poll_interval_seconds
      (row.consecutive_failures + 1) =
      min 3600 (row.poll_interval_seconds * 2 ^ (row.consecutive_failures + 1)) := by
    rw [compute_backoff_seconds, if_neg (by omega)]
  have h1 : (record_fetch_error now sources sid status_code fetch_ms err).1 =
      updateSource
        (recordErrorUpdate now status_code fetch_ms err
          (row.consecutive_failures + 1)
          (compute_backoff_seconds row.poll_interval_seconds
            (row.consecutive_failures + 1)))
        sid sources := by
    rw [record_fetch_error, hfind]
  have h2 : (record_fetch_error now sources sid status_code fetch_ms err).2 =
      compute_backoff_seconds row.poll_interval_seconds
        (row.consecutive_failures + 1) := by
    rw [record_fetch_error, hfind]
  have h3 : findSource
      (updateSource
        (recordErrorUpdate now status_code fetch_ms err
          (row.consecutive_failures + 1)
          (compute_backoff_seconds row.poll_interval_seconds
            (row.consecutive_failures + 1)))
        sid sources) sid =
      some (recordErrorUpdate now status_code fetch_ms err
        (row.consecutive_failures + 1)
        (compute_backoff_seconds row.poll_interval_seconds
          (row.consecutive_failures + 1)) row) := by
    rw [findSource_updateSource
      (recordErrorUpdate now status_code fetch_ms err
        (row.consecutive_failures + 1)
        (compute_backoff_seconds row.poll_interval_seconds
          (row.consecutive_failures + 1)))
      sid (fun r => rfl) sources, hfind]
    rfl
  refine ⟨by rw [h2, hb], _, by rw [h1]; exact h3, ?_, ?_, ?_, ?_⟩ <;>
    simp [recordErrorUpdate, hb]

/-- Witness for C5 at a concrete source table. -/
theorem record_fetch_error_spec_witness :
    (record_fetch_error 1000
        [{ source_id := "s1", poll_interval_seconds := 60,
           consecutive_failures := 2, error_count := 7, success_count := 3,
           last_error := none, next_fetch_at := none, last_error_at := none,
           last_fetch_at := none, last_status_code := none,
           last_fetch_ms := none }]
        "s1" (some 500) (some 12) "http_500").2 = 480 := by
  have h := record_fetch_error_spec 1000
    [{ source_id := "s1", poll_interval_seconds := 60,
       consecutive_failures := 2, error_count := 7, success_count := 3,
       last_error := none, next_fetch_at := none, last_error_at := none,
       last_fetch_at := none, last_status_code := none,
       last_fetch_ms := none }]
    "s1" (some 500) (some 12) "http_500" _ (by rfl)
  rw [h.1]
  rfl

/-! ## Scheduler 429 handling (src/ingest/scheduler.py) -/

/-- Python `str.isdigit` restricted to ASCII decimal digits (HTTP header
values are ASCII): true iff the string is non-empty and all digits. -/
def isAsciiDigitStr (s : String) : Bool :=
  !s.data.isEmpty && s.data.all (fun c => c.isDigit)

/-- `int(...)` on an ASCII decimal-digit string. -/
def parseDigits (s : String) : Nat :=
  s.data.foldl (fun acc c => acc * 10 + (c.toNat - 48)) 0

/-- The status-429 branch of `_run_one` (scheduler.py): record the error as
`"http_429"`, then, when the `Retry-After` header is a digit string whose
value exceeds the computed backoff, override `next_fetch_at` to
`now + Retry-After` (and report that value as the backoff). -/
def handle_429 (now : Int) (sources : List SourceRow) (sid : String)
    (fetch_ms : Option Int) (retry_after : Option String) :
    List SourceRow × Nat :=
  let res := record_fetch_error now sources sid (some 429) fetch_ms "http_429"
  match retry_after with
  | some ra =>
    if isAsciiDigitStr ra then
      if parseDigits ra > res.2 then
        (updateSource (fun r => { r with next_fetch_at := some (now + (parseDigits ra : Int)) })
            sid res.1,
          parseDigits ra)
      else res
    else res
  | none => res

/-- C6: on a 429 the scheduler records error kind `"http_429"`; when the
`Retry-After` header parses as a number strictly greater than the computed
exponential backoff, `next_fetch_at` is overridden to `now + Retry-After`
(in particular `Retry-After: 120` puts the next fetch at least 120 seconds
into the future); when it is absent, non-numeric or not greater, the backoff
value is kept. -/
theorem handle_429_spec (now : Int) (sources : List SourceRow) (sid : String)
    (fetch_ms : Option Int) (retry_after : Option String) (row : SourceRow)
    (hfind : findSource sources sid = some row) :
    ∃ row' : SourceRow,
      findSource (handle_429 now sources sid fetch_ms retry_after).1 sid = some row' ∧
      row'.last_error = some "http_429" ∧
      row'.consecutive_failures = row.consecutive_failures + 1 ∧
      ((∃ ra, retry_after = some ra ∧ isAsciiDigitStr ra = true ∧
          parseDigits ra > min 3600 (row.poll_interval_seconds * 2 ^ (row.consecutive_failures + 1)) ∧
          row'.next_fetch_at = some (now + (parseDigits ra : Int)) ∧
          (handle_429 now sources sid fetch_ms retry_after).2 = parseDigits ra) ∨
       (¬(∃ ra, retry_after = some ra ∧ isAsciiDigitStr ra = true ∧
            parseDigits ra > min 3600 (row.poll_interval_seconds * 2 ^ (row.consecutive_failures + 1))) ∧
          row'.next_fetch_at = some (now +
            (min 3600 (row.poll_interval_seconds * 2 ^ (row.consecutive_failures + 1)) : Nat)) ∧
          (handle_429 now sources sid fetch_ms retry_after).2 =
            min 3600 (row.poll_interval_seconds * 2 ^ (row.consecutive_failures + 1)))) ∧
      (retry_after = some "120" → ∀ t, row'.next_fetch_at = some t → now + 120 ≤ t) := by
  obtain ⟨hback, row1, hfind1, hcf1, hec1, herr1, hnext1⟩ :=
    record_fetch_error_spec now sources sid (some 429) fetch_ms "http_429" row hfind
  set b := min 3600 (row.poll_interval_seconds * 2 ^ (row.consecutive_failures + 1)) with hbdef
  by_cases hra : ∃ ra, retry_after = some ra ∧ isAsciiDigitStr ra = true ∧ parseDigits ra > b
  · obtain ⟨ra, hra_eq, hdig, hgt⟩ := hra
    have hcase : handle_429 now sources sid fetch_ms retry_after =
        (updateSource (fun r => { r with next_fetch_at := some (now + (parseDigits ra : Int)) })
            sid (record_fetch_error now sources sid (some 429) fetch_ms "http_429").1,
          parseDigits ra) := by
      rw [handle_429.eq_def, hra_eq]
      simp only [hdig, if_true]
      rw [if_pos (by rw [hback]; exact hgt)]
    refine ⟨{ row1 with next_fetch_at := some (now + (parseDigits ra : Int)) }, ?_, ?_, ?_, ?_, ?_⟩
    · rw [hcase]
      rw [findSource_updateSource
        (fun r => { r with next_fetch_at := some (now + (parseDigits ra : Int)) })
        sid (fun r => rfl) _, hfind1]
      rfl
    · exact herr1
    · exact hcf1
    · exact Or.inl ⟨ra, hra_eq, hdig, hgt, rfl, by rw [hcase]⟩
    · intro h120 t ht
      rw [hra_eq] at h120
      simp only [Option.some.injEq] at h120
      subst h120
      have hpd : parseDigits "120" = 120 := by decide
      have ht' : some (now + (parseDigits "120" : Int)) = some t := ht
      rw [hpd] at ht'
      simp only [Option.some.injEq] at ht'
      omega
  · have hcase : handle_429 now sources sid fetch_ms retry_after =
        record_fetch_error now sources sid (some 429) fetch_ms "http_429" := by
      rw [handle_429.eq_def]
      match hr : retry_after with
      | none => rfl
      | some ra =>
        by_cases hdig : isAsciiDigitStr ra = true
        · have hngt : ¬(parseDigits ra >
              (record_fetch_error now sources sid (some 429) fetch_ms "http_429").2) := by
            rw [hback]
            intro hgt
            exact hra ⟨ra, rfl, hdig, hgt⟩
          simp only [hdig, if_true]
          rw [if_neg hngt]
        · simp only [Bool.not_eq_true] at hdig
          simp only [hdig]
          rfl
    refine ⟨row1, by rw [hcase]; exact hfind1, herr1, hcf1,
      Or.inr ⟨hra, hnext1, by rw [hcase]; exact hback⟩, ?_⟩
    · intro h120 t ht
      rw [hnext1] at ht
      simp only [Option.some.injEq] at ht
      have hnot : ¬(parseDigits "120" > b) := by
        intro hgt
        exact hra ⟨"120", h120, by decide, hgt⟩
      have : parseDigits "120" = 120 := by decide
      omega

/-- Witness for C6: a concrete source, `Retry-After: 120` against a backoff
of 60 seconds overrides `next_fetch_at`. -/
theorem handle_429_spec_witness :
    ∃ row' : SourceRow,
      findSource (handle_429 0
          [{ source_id := "s2", poll_interval_seconds := 30,
             consecutive_failures := 0, error_count := 0, success_count := 0,
             last_error := none, next_fetch_at := none, last_error_at := none,
             last_fetch_at := none, last_status_code := none,
             last_fetch_ms := none }]
          "s2" none (some "120")).1 "s2" = some row' ∧
      row'.last_error = some "http_429" ∧
      row'.next_fetch_at = some 120 := by
  obtain ⟨row', hfind', herr', hcf', hcases, h120⟩ :=
    handle_429_spec 0
      [{ source_id := "s2", poll_interval_seconds := 30,
         consecutive_failures := 0, error_count := 0, success_count := 0,
         last_error := none, next_fetch_at := none, last_error_at := none,
         last_fetch_at := none, last_status_code := none,
         last_fetch_ms := none }]
      "s2" none (some "120") _ (by rfl)
  refine ⟨row', hfind', herr', ?_⟩
  rcases hcases with ⟨ra, hra, _, _, hnext, _⟩ | ⟨hno, hnext, _⟩
  · have : ra = "120" := by injection hra with h; exact h.symm
    subst this
    rw [hnext]
    norm_num
    decide
  · exact absurd ⟨"120", rfl, by decide, by decide⟩ hno

/-! ## Country-centroid fallback in the record loop (src/ingest/scheduler.py) -/

/-- The fields of a normalized record that the country-centroid fallback in
`_run_one` (scheduler.py, the lines guarding `find_country_centroid`) reads
and writes. -/
structure NormItem where
  location_confidence : String
  location_name : Option String
  lat : Option ℚ
  lon : Option ℚ
deriving Repr, DecidableEq

/-- Python truthiness of `item.get("location_name")`: present and non-empty. -/
def truthyName : Option String → Bool
  | some s => s != ""
  | none => false

/-- One iteration of the per-record loop restricted to the country-centroid
fallback (scheduler.py):

```
if (item.get("location_confidence") == "C_country"
        and item.get("lat") is None and item.get("location_name")):
    centroid = find_country_centroid(db, str(item["location_name"]))
if centroid is not None:
    item["lat"], item["lon"] = centroid
```

`centroidVar` is the state of the Python local variable `centroid` entering
the iteration: `none` when it has never been assigned (reading it raises
`NameError`, modelled as `Except.error`), `some c` when it holds value `c`
from an earlier iteration of the loop.  `lookup` models
`find_country_centroid db`. -/
def centroid_fallback_step (lookup : String → Option (ℚ × ℚ))
    (centroidVar : Option (Option (ℚ × ℚ))) (item : NormItem) :
    Except Unit (Option (Option (ℚ × ℚ)) × NormItem) :=
  let centroidVar' :=
    if item.location_confidence == "C_country" && item.lat.isNone &&
        truthyName item.location_name then
      some (lookup (item.location_name.getD ""))
    else centroidVar
  match centroidVar' with
  | none => Except.error ()
  | some (some cv) =>
    Except.ok (some (some cv), { item with lat := some cv.1, lon := some cv.2 })
  | some none => Except.ok (some none, item)

/-- The record loop, threaded over the loop-carried `centroid` variable,
returning the processed records (insert and further steps elided). -/
def centroid_fallback_run (lookup : String → Option (ℚ × ℚ)) :
    Option (Option (ℚ × ℚ)) → List NormItem → Except Unit (List NormItem)
  | _, [] => Except.ok []
  | cv, item :: rest =>
    match centroid_fallback_step lookup cv item with
    | Except.error e => Except.error e
    | Except.ok (cv', item') =>
      match centroid_fallback_run lookup cv' rest with
      | Except.error e => Except.error e
      | Except.ok rest' => Except.ok (item' :: rest')

/-- C1 (code bug): the country-centroid fallback is not guarded.  With a
lookup mapping `"France"` to `(46, 2)`, a first record that legitimately
triggers the fallback (`C_country`, no `lat`, matched country name) leaks
its centroid into the loop-carried `centroid` variable, and a second record
with `location_confidence = "A_exact"` and its own coordinates `(10, 20)`
gets them overwritten with `(46, 2)`; moreover a batch whose first record
does not trigger the fallback raises `NameError` (`centroid` read before
assignment), modelled as `Except.error`. -/
theorem centroid_fallback_leak :
    centroid_fallback_run
        (fun n => if n == "France" then some ((46 : ℚ), (2 : ℚ)) else none)
        none
        [{ location_confidence := "C_country", location_name := some "France",
           lat := none, lon := none },
         { location_confidence := "A_exact", location_name := none,
           lat := some 10, lon := some 20 }] =
      Except.ok
        [{ location_confidence := "C_country", location_name := some "France",
           lat := some 46, lon := some 2 },
         { location_confidence := "A_exact", location_name := none,
           lat := some 46, lon := some 2 }] ∧
    centroid_fallback_run
        (fun n => if n == "France" then some ((46 : ℚ), (2 : ℚ)) else none)
        none
        [{ location_confidence := "A_exact", location_name := none,
           lat := some 10, lon := some 20 }] =
      Except.error () := by
  constructor
  · rfl
  · rfl

/-! ## Clusterer data model (src/cluster/clusterer.py, src/store/db.py) -/

/-- Parsed GeoJSON geometry, as consumed by `_bbox_from_geojson`
(`json.loads` of the stored `geom_geojson` string is modelled as the
identity on this structured value).  Coordinates are `(lon, lat)` pairs.
`other` stands for the geometry types the function does not recognize. -/
inductive Geom where
  | point (lon lat : ℚ)
  | polygon (rings : List (List (ℚ × ℚ)))
  | multiPolygon (polys : List (List (List (ℚ × ℚ))))
  | lineString (pts : List (ℚ × ℚ))
  | multiLineString (lines : List (List (ℚ × ℚ)))
  | other
deriving Repr, DecidableEq

/-- A bbox `(min_lon, min_lat, max_lon, max_lat)`; stored as a comma-joined
string in the `incidents` table, a lossless round trip modelled as identity. -/
structure BBox where
  min_lon : ℚ
  min_lat : ℚ
  max_lon : ℚ
  max_lat : ℚ
deriving Repr, DecidableEq

/-- The point list `_bbox_from_geojson` collects for each geometry type. -/
def geomPoints : Geom → Option (List (ℚ × ℚ))
  | Geom.point lon lat => some [(lon, lat)]
  | Geom.polygon rings => some rings.flatten
  | Geom.multiPolygon polys => some (polys.map List.flatten).flatten
  | Geom.lineString pts => some pts
  | Geom.multiLineString lines => some lines.flatten
  | Geom.other => none

/-- `_bbox_from_geojson` from clusterer.py: extent of the collected points,
`None` for unrecognized geometry or no points. -/
def bbox_from_geojson (g : Geom) : Option BBox :=
  match geomPoints g with
  | none => none
  | some [] => none
  | some (p :: ps) =>
    some (ps.foldl
      (fun (b : BBox) (q : ℚ × ℚ) =>
        { min_lon := min b.min_lon q.1, min_lat := min b.min_lat q.2,
          max_lon := max b.max_lon q.1, max_lat := max b.max_lat q.2 })
      { min_lon := p.1, min_lat := p.2, max_lon := p.1, max_lat := p.2 })

/-- `_centroid_from_bbox` from clusterer.py: returns `(lat, lon)`. -/
def centroid_from_bbox (b : BBox) : ℚ × ℚ :=
  ((b.min_lat + b.max_lat) / 2, (b.min_lon + b.max_lon) / 2)

/-- `conf.startswith(pre)`: the first `len(pre)` characters equal `pre`. -/
def strStartsWith (s pre : String) : Bool :=
  s.data.take pre.data.length == pre.data

/-- `_location_rank` from clusterer.py. -/
def location_rank (conf : String) : Nat :=
  if conf == "A_exact" then 30
  else if strStartsWith conf "B_" then 20
  else if strStartsWith conf "C_" then 10
  else 0

/-- The token-set of a text: distinct `[a-z0-9]+` tokens after casefold. -/
def tokenSet (s : String) : List String :=
  (pyTokens s).dedup

/-- `_token_jaccard` from clusterer.py, with the float quotient modelled as
the exact rational. -/
def token_jaccard (a b : String) : ℚ :=
  let as := tokenSet a
  let bs := tokenSet b
  if as.isEmpty || bs.isEmpty then 0
  else ((as.filter (fun t => bs.contains t)).length : ℚ) /
    ((as ++ bs.filter (fun t => !as.contains t)).length : ℚ)

/-- Python `round(·)` (banker's rounding, ties to even) on a rational. -/
def pyRound (q : ℚ) : Int :=
  let f := ⌊q⌋
  let r := q - f
  if r < 1 / 2 then f
  else if 1 / 2 < r then f + 1
  else if f % 2 = 0 then f else f + 1

/-- The `raw` JSON payload fields `_severity_score` reads, with the
`isinstance` branches reflected in the types (`severity_level_1_5` may be
an int or a string, `frp` is `None` when absent or unparsable). -/
structure Raw where
  mag : Option ℚ := none
  severity : Option String := none
  advice_level : Option String := none
  severity_level_1_5 : Option (Int ⊕ String) := none
  frp : Option ℚ := none
  severity_kind : Option String := none
  avg_delay_min : Option Int := none
deriving Repr, DecidableEq

/-- `_severity_score` from clusterer.py. -/
def severity_score (category : String) (raw : Raw) : Int :=
  if category == "earthquake" then
    match raw.mag with
    | some mag => max 0 (min 100 (pyRound ((mag - 3) * 20)))
    | none => 40
  else if category == "weather_alert" then
    if raw.severity == some "Extreme" then 95
    else if raw.severity == some "Severe" then 80
    else if raw.severity == some "Moderate" then 55
    else if raw.severity == some "Minor" then 35
    else 50
  else if category == "tropical_cyclone" then 75
  else if category == "travel_advisory" then
    if raw.advice_level == some "do_not_travel" then 85
    else if raw.advice_level == some "reconsider_your_need_to_travel" then 65
    else 50
  else if category == "tsunami" then 90
  else if category == "volcano" then
    match raw.severity_level_1_5 with
    | some (Sum.inl i) => max 0 (min 100 (i * 20))
    | some (Sum.inr s) =>
      if isAsciiDigitStr s then max 0 (min 100 ((parseDigits s : Int) * 20))
      else 70
    | none => 70
  else if category == "wildfire" then
    match raw.frp with
    | some frp => max 0 (min 100 (pyRound (frp * 3)))
    | none => 55
  else if category == "aviation_disruption" then
    if raw.severity_kind.getD "" == "closure" then 90
    else if raw.severity_kind.getD "" == "ground_stop" then 80
    else if raw.severity_kind.getD "" == "gdp" then 65
    else
      match raw.avg_delay_min with
      | some avg => max 40 (min 80 avg)
      | none => 50
  else if category == "health_advisory" then 55
  else if category == "cyber_kev" then 75
  else if category == "cyber_cve" then 60
  else if category == "disaster" then 60
  else 40

/-- `_incident_summary_from_item` from clusterer.py (`or` is Python
truthiness: an empty summary falls back to the title). -/
def incident_summary_from_item (category item_title item_summary : String) :
    String :=
  if category == "earthquake" then item_title
  else if category == "weather_alert" then
    (if item_summary == "" then item_title else item_summary)
  else if category == "tropical_cyclone" then item_title
  else if category == "travel_advisory" then item_title
  else if category == "cyber_cve" || category == "cyber_kev" then item_title
  else (if item_summary == "" then item_title else item_summary)

/-- The `token_signature` computation from clusterer.py: first six tokens
joined with spaces, `None` when empty. -/
def token_signature (summary : String) : Option String :=
  let s := String.intercalate " " ((pyTokens summary).take 6)
  if s == "" then none else some s

/-- Row of the `items` table (the columns the dedup check and the clusterer
read).  `published_at` is integer seconds; `geom` is the parsed
`geom_geojson`; `simhash` is the stored signed value. -/
structure ItemRow where
  item_id : String
  source_id : String
  external_id : Option String
  url : String
  title : String
  summary : String
  category : String
  published_at : Int
  lat : Option ℚ
  lon : Option ℚ
  geom : Option Geom
  location_confidence : String
  location_rationale : String
  raw : Raw
  hash_title : String
  simhash : Int
deriving Repr, DecidableEq

/-- Row of the `incidents` table. -/
structure IncidentRow where
  incident_id : String
  title : String
  summary : String
  category : String
  first_seen_at : Int
  last_seen_at : Int
  last_item_at : Int
  status : String
  severity_score : Int
  geom : Option Geom
  lat : Option ℚ
  lon : Option ℚ
  bbox : Option BBox
  location_confidence : String
  location_rationale : String
  incident_simhash : Int
  token_signature : Option String
  item_count : Nat
  source_count : Nat
deriving Repr, DecidableEq

/-- The tables the clusterer and the insert loop touch. -/
structure DB where
  items : List ItemRow
  incidents : List IncidentRow
  incident_items : List (String × String)
deriving Repr, DecidableEq

/-! ## C4: deduplication on insert (src/ingest/scheduler.py) -/

/-- Python truthiness of the normalized `external_id` (`None` or non-empty
after the `str(... or "").strip() or None` normalization at the top of the
record loop). -/
def truthyExternalId : Option String → Bool
  | some s => s != ""
  | none => false

/-- The unique indexes on `items` (`src/store/db.py`): primary key
`item_id`, `items_url_uq` on `url`, and `items_source_external_uq` on
`(source_id, external_id)` with SQLite treating NULLs as distinct.  True
when inserting `item` would raise `sqlite3.IntegrityError`. -/
def violatesUniqueIndex (items : List ItemRow) (item : ItemRow) : Bool :=
  items.any (fun r =>
    r.item_id == item.item_id ||
    r.url == item.url ||
    (match r.external_id, item.external_id with
     | some a, some b => r.source_id == item.source_id && a == b
     | _, _ => false))

/-- The duplicate check plus guarded insert for one normalized record
(the record loop of `_run_one`, scheduler.py): for `news` items with a
non-null `external_id`, skip when `(source_id, external_id)` already
exists; otherwise skip when the same `(source_id, hash_title)` exists with
`published_at >= now - 24h`; a unique-index violation on the insert itself
is caught and the record skipped.  Returns the new table and whether the
row was inserted. -/
def dedup_insert (now : Int) (items : List ItemRow) (item : ItemRow) :
    List ItemRow × Bool :=
  let title_cutoff := now - 24 * 3600
  let dup : Bool :=
    if item.category == "news" && truthyExternalId item.external_id then
      items.any (fun r =>
        r.source_id == item.source_id && r.external_id == item.external_id)
    else
      items.any (fun r =>
        r.source_id == item.source_id && r.hash_title == item.hash_title &&
          decide (r.published_at ≥ title_cutoff))
  if dup then (items, false)
  else if violatesUniqueIndex items item then (items, false)
  else (items ++ [item], true)

/-- The record loop over a batch: every record is processed; skipped
records leave the table unchanged and processing continues with the rest.
Returns the final table and the ids of the inserted rows (in order). -/
def insert_records (now : Int) : List ItemRow → List ItemRow →
    List ItemRow × List String
  | items, [] => (items, [])
  | items, record :: rest =>
    let step := dedup_insert now items record
    let restResult := insert_records now step.1 rest
    (restResult.1,
      (if step.2 then [record.item_id] else []) ++ restResult.2)


/-- C4: the insert of a normalized item is skipped exactly when the
spec's duplicate condition holds — for `news` with non-null `external_id`,
an existing `(source_id, external_id)` pair; otherwise an existing
`(source_id, hash_title)` with `published_at` within the last 24 hours —
or when the insert would violate a unique index (caught and treated as a
duplicate); a skipped record leaves the table unchanged and the loop
continues with the remaining records. -/
theorem dedup_insert_spec (now : Int) (items : List ItemRow) (item : ItemRow)
    (rest : List ItemRow) :
    ((dedup_insert now items item).2 = false ↔
      ((if item.category = "news" ∧ truthyExternalId item.external_id = true then
          ∃ r ∈ items, r.source_id = item.source_id ∧
            r.external_id = item.external_id
        else
          ∃ r ∈ items, r.source_id = item.source_id ∧
            r.hash_title = item.hash_title ∧ r.published_at ≥ now - 24 * 3600) ∨
        violatesUniqueIndex items item = true)) ∧
    ((dedup_insert now items item).2 = false →
      (dedup_insert now items item).1 = items ∧
      insert_records now items (item :: rest) = insert_records now items rest) ∧
    ((dedup_insert now items item).2 = true →
      (dedup_insert now items item).1 = items ++ [item]) := by
  have hexist_news :
      (items.any (fun r =>
        r.source_id == item.source_id && r.external_id == item.external_id)) = true ↔
      ∃ r ∈ items, r.source_id = item.source_id ∧
        r.external_id = item.external_id := by
    rw [List.any_eq_true]
    constructor
    · rintro ⟨r, hr, hb⟩
      simp only [Bool.and_eq_true, beq_iff_eq] at hb
      exact ⟨r, hr, hb.1, hb.2⟩
    · rintro ⟨r, hr, h1, h2⟩
      exact ⟨r, hr, by simp [h1, h2]⟩
  have hexist_title :
      (items.any (fun r =>
        r.source_id == item.source_id && r.hash_title == item.hash_title &&
          decide (r.published_at ≥ now - 24 * 3600))) = true ↔
      ∃ r ∈ items, r.source_id = item.source_id ∧
        r.hash_title = item.hash_title ∧ r.published_at ≥ now - 24 * 3600 := by
    rw [List.any_eq_true]
    constructor
    · rintro ⟨r, hr, hb⟩
      simp only [Bool.and_eq_true, beq_iff_eq, decide_eq_true_eq] at hb
      exact ⟨r, hr, hb.1.1, hb.1.2, hb.2⟩
    · rintro ⟨r, hr, h1, h2, h3⟩
      refine ⟨r, hr, ?_⟩
      simp only [Bool.and_eq_true, beq_iff_eq, decide_eq_true_eq]
      exact ⟨⟨h1, h2⟩, h3⟩
  have main : (dedup_insert now items item).2 = false ↔
      ((if item.category = "news" ∧ truthyExternalId item.external_id = true then
          ∃ r ∈ items, r.source_id = item.source_id ∧
            r.external_id = item.external_id
        else
          ∃ r ∈ items, r.source_id = item.source_id ∧
            r.hash_title = item.hash_title ∧ r.published_at ≥ now - 24 * 3600) ∨
        violatesUniqueIndex items item = true) := by
    rw [dedup_insert]
    by_cases hcat : (item.category == "news" && truthyExternalId item.external_id) = true
    · have hcat' : item.category = "news" ∧ truthyExternalId item.external_id = true := by
        simpa [Bool.and_eq_true, beq_iff_eq] using hcat
      rw [if_pos hcat, if_pos hcat']
      by_cases hdup : (items.any (fun r =>
          r.source_id == item.source_id && r.external_id == item.external_id)) = true
      · rw [if_pos hdup]
        simpa using Or.inl (hexist_news.mp hdup)
      · rw [if_neg hdup]
        simp only [Bool.not_eq_true] at hdup
        by_cases hviol : violatesUniqueIndex items item = true
        · rw [if_pos hviol]
          simpa using Or.inr hviol
        · simp only [Bool.not_eq_true] at hviol
          rw [if_neg (by simp [hviol])]
          constructor
          · intro h
            simp at h
          · rintro (h | h)
            · rw [hexist_news.mpr h] at hdup
              simp at hdup
            · rw [h] at hviol
              simp at hviol
    · have hcat' : ¬(item.category = "news" ∧ truthyExternalId item.external_id = true) := by
        intro hand
        exact hcat (by simp [hand.1, hand.2])
      rw [if_neg hcat, if_neg hcat']
      by_cases hdup : (items.any (fun r =>
          r.source_id == item.source_id && r.hash_title == item.hash_title &&
            decide (r.published_at ≥ now - 24 * 3600))) = true
      · rw [if_pos hdup]
        simpa using Or.inl (hexist_title.mp hdup)
      · rw [if_neg hdup]
        simp only [Bool.not_eq_true] at hdup
        by_cases hviol : violatesUniqueIndex items item = true
        · rw [if_pos hviol]
          simpa using Or.inr hviol
        · simp only [Bool.not_eq_true] at hviol
          rw [if_neg (by simp [hviol])]
          constructor
          · intro h
            simp at h
          · rintro (h | h)
            · rw [hexist_title.mpr h] at hdup
              simp at hdup
            · rw [h] at hviol
              simp at hviol
  refine ⟨main, ?_, ?_⟩
  · intro hskip
    have htab : (dedup_insert now items item).1 = items := by
      rw [dedup_insert] at hskip ⊢
      by_cases hdup : (if item.category == "news" && truthyExternalId item.external_id then
          items.any (fun r =>
            r.source_id == item.source_id && r.external_id == item.external_id)
        else
          items.any (fun r =>
            r.source_id == item.source_id && r.hash_title == item.hash_title &&
              decide (r.published_at ≥ now - 24 * 3600))) = true
      · rw [if_pos hdup]
      · rw [if_neg hdup] at hskip ⊢
        by_cases hviol : violatesUniqueIndex items item = true
        · rw [if_pos hviol]
        · rw [if_neg hviol] at hskip
          simp at hskip
    refine ⟨htab, ?_⟩
    have hunfold : insert_records now items (item :: rest) =
        ((insert_records now (dedup_insert now items item).1 rest).1,
          (if (dedup_insert now items item).2 then [item.item_id] else []) ++
            (insert_records now (dedup_insert now items item).1 rest).2) := rfl
    rw [hunfold, hskip, htab]
    simp
  · intro hins
    rw [dedup_insert] at hins ⊢
    by_cases hdup : (if item.category == "news" && truthyExternalId item.external_id then
        items.any (fun r =>
          r.source_id == item.source_id && r.external_id == item.external_id)
      else
        items.any (fun r =>
          r.source_id == item.source_id && r.hash_title == item.hash_title &&
            decide (r.published_at ≥ now - 24 * 3600))) = true
    · rw [if_pos hdup] at hins
      simp at hins
    · rw [if_neg hdup] at hins ⊢
      by_cases hviol : violatesUniqueIndex items item = true
      · rw [if_pos hviol] at hins
        simp at hins
      · rw [if_neg hviol]

/-- A `news` item row used by the C4 witness. -/
def dupRowA : ItemRow :=
  { item_id := "i1", source_id := "s", external_id := some "e1", url := "u1",
    title := "t", summary := "", category := "news", published_at := 0,
    lat := none, lon := none, geom := none, location_confidence := "U_unknown",
    location_rationale := "", raw := {}, hash_title := "h1", simhash := 0 }

/-- A second `news` record with the same `(source_id, external_id)`. -/
def dupItemB : ItemRow :=
  { dupRowA with item_id := "i2", url := "u2", hash_title := "h2" }

/-- Witness for C4: a news record whose `(source_id, external_id)` already
exists is skipped and the loop result is unchanged. -/
theorem dedup_insert_spec_witness :
    (dedup_insert 0 [dupRowA] dupItemB).2 = false ∧
    insert_records 0 [dupRowA] [dupItemB] = ([dupRowA], []) := by
  have h := dedup_insert_spec 0 [dupRowA] dupItemB []
  have hskip : (dedup_insert 0 [dupRowA] dupItemB).2 = false :=
    h.1.mpr (Or.inl (by decide))
  refine ⟨hskip, ?_⟩
  rw [(h.2.1 hskip).2]
  rfl

/-! ## Clusterer operations (src/cluster/clusterer.py) -/

/-- The per-category match thresholds of `assign_item_to_incident`:
`(match_dist, match_dist_loose, jaccard_min)`, Python float literals as
exact rationals. -/
def match_thresholds (category : String) : Nat × Nat × ℚ :=
  if category == "news" then (4, 10, 6 / 10)
  else if category == "earthquake" || category == "volcano" ||
      category == "tsunami" then (8, 14, 4 / 10)
  else (6, 12, 45 / 100)

/-- The candidate loop of `assign_item_to_incident`: running
`(best, best_distance)` pair starting from `(None, 10_000)`, replaced on
strict improvement. -/
def select_best_step (u : Nat) (acc : Option IncidentRow × Nat)
    (c : IncidentRow) : Option IncidentRow × Nat :=
  let dist := hamming_distance u (i64_to_u64 c.incident_simhash)
  if dist < acc.2 then (some c, dist) else acc

def select_best (u : Nat) (candidates : List IncidentRow) :
    Option IncidentRow × Nat :=
  candidates.foldl (select_best_step u) (none, 10000)

/-- The candidate query of `assign_item_to_incident`: same category,
`last_seen_at` within the lookback window, same SimHash bucket (via the SQL
signed-shift expression), ordered by `last_seen_at` descending, capped at
200 rows. -/
def candidate_incidents (now : Int) (incidents : List IncidentRow)
    (category : String) (bucket : Nat) : List IncidentRow :=
  let lookback_hours : Int := if category == "news" then 24 else 48
  let cutoff := now - lookback_hours * 3600
  (List.insertionSort (fun a b => b.last_seen_at ≤ a.last_seen_at)
      (incidents.filter (fun inc =>
        inc.category == category && decide (inc.last_seen_at ≥ cutoff) &&
          sqlBucket inc.incident_simhash == (bucket : Int)))).take 200

/-- The match decision of `assign_item_to_incident`: tight distance, or
loose distance with the token-Jaccard floor. -/
def match_decision (category title summary : String) (u : Nat)
    (candidates : List IncidentRow) : Option String :=
  let bd := select_best u candidates
  let th := match_thresholds category
  match bd.1 with
  | none => none
  | some best =>
    if bd.2 ≤ th.1 then some best.incident_id
    else if th.1 < bd.2 ∧ bd.2 ≤ th.2.1 then
      (if token_jaccard (title ++ " " ++ summary)
          (best.title ++ " " ++ best.summary) ≥ th.2.2 then
        some best.incident_id
      else none)
    else none

/-- `INSERT OR IGNORE INTO incident_items` (primary key on both columns). -/
def insert_link (links : List (String × String)) (l : String × String) :
    List (String × String) :=
  if links.contains l then links else links ++ [l]

/-- `UPDATE incidents SET ... WHERE incident_id = ?`. -/
def mapIncident (incidents : List IncidentRow) (id : String)
    (f : IncidentRow → IncidentRow) : List IncidentRow :=
  incidents.map (fun inc => if inc.incident_id == id then f inc else inc)

/-- The `COUNT(*)` / `COUNT(DISTINCT i.source_id)` recount over the
junction joined with `items`. -/
def junction_counts (db : DB) (incident_id : String) : Nat × Nat :=
  let joined := (db.incident_items.filter (fun l => l.1 == incident_id)).filterMap
    (fun l => db.items.find? (fun it => it.item_id == l.2))
  (joined.length, (joined.map (fun it => it.source_id)).dedup.length)

/-- The new-incident row built on the no-match path of
`assign_item_to_incident` (`fresh` models the `uuid4` string). -/
def new_incident_row (now : Int) (fresh : String)
    (item : ItemRow) : IncidentRow :=
  let summary := incident_summary_from_item item.category item.title item.summary
  let item_bbox := item.geom.bind bbox_from_geojson
  let latlon : Option ℚ × Option ℚ × Option BBox :=
    match item_bbox with
    | some b => (some (centroid_from_bbox b).1, some (centroid_from_bbox b).2, some b)
    | none => (item.lat, item.lon, none)
  { incident_id := fresh, title := item.title, summary := summary,
    category := item.category, first_seen_at := now, last_seen_at := now,
    last_item_at := item.published_at, status := "active",
    severity_score := severity_score item.category item.raw,
    geom := item.geom, lat := latlon.1, lon := latlon.2.1, bbox := latlon.2.2,
    location_confidence := item.location_confidence,
    location_rationale := item.location_rationale,
    incident_simhash := item.simhash,
    token_signature := token_signature summary,
    item_count := 1, source_count := 1 }

/-- The field computation of the matched-update path of
`assign_item_to_incident` (everything the single `UPDATE` statement
writes): summary re-shaping, `last_seen_at`/`last_item_at`, severity max,
location promotion by ladder rank, bbox merge with centroid recompute, and
the recomputed incident SimHash and token signature. -/
def update_incident_fields (tokenHash : String → Nat) (now : Int)
    (incident : IncidentRow) (item : ItemRow) : IncidentRow :=
  let summary := incident_summary_from_item item.category item.title item.summary
  let item_bbox := item.geom.bind bbox_from_geojson
  let promoted : Option Geom × Option ℚ × Option ℚ × Option BBox × String × String :=
    if location_rank item.location_confidence >
        location_rank incident.location_confidence then
      match item_bbox with
      | some b =>
        (item.geom, some (centroid_from_bbox b).1, some (centroid_from_bbox b).2,
          some b, item.location_confidence, item.location_rationale)
      | none =>
        (item.geom, item.lat, item.lon, incident.bbox,
          item.location_confidence, item.location_rationale)
    else
      (incident.geom, incident.lat, incident.lon, incident.bbox,
        incident.location_confidence, incident.location_rationale)
  let merged : Option ℚ × Option ℚ × Option BBox :=
    match item_bbox, promoted.2.2.2.1 with
    | some ib, some cur =>
      let m : BBox :=
        { min_lon := min cur.min_lon ib.min_lon,
          min_lat := min cur.min_lat ib.min_lat,
          max_lon := max cur.max_lon ib.max_lon,
          max_lat := max cur.max_lat ib.max_lat }
      (some (centroid_from_bbox m).1, some (centroid_from_bbox m).2, some m)
    | _, _ => (promoted.2.1, promoted.2.2.1, promoted.2.2.2.1)
  { incident with
      summary := summary,
      last_seen_at := now,
      last_item_at := max incident.last_item_at item.published_at,
      severity_score := max incident.severity_score
        (severity_score item.category item.raw),
      geom := promoted.1,
      lat := merged.1,
      lon := merged.2.1,
      bbox := merged.2.2,
      location_confidence := promoted.2.2.2.2.1,
      location_rationale := promoted.2.2.2.2.2,
      incident_simhash := u64_to_i64
        (simhash64 tokenHash (incident.title ++ " " ++ summary)),
      token_signature := token_signature summary }

/-- The per-category merge parameters of `_maybe_merge_incidents`:
`(max_km, max_dist, lookback_hours)`. -/
def merge_params (category : String) : ℚ × Nat × Int :=
  if category == "news" then (40, 2, 24)
  else if category == "earthquake" || category == "volcano" then (120, 4, 72)
  else if category == "wildfire" then (50, 3, 48)
  else if category == "tsunami" then (2500, 4, 72)
  else if category == "aviation_disruption" then (30, 3, 24)
  else if category == "weather_alert" then (120, 3, 48)
  else if category == "tropical_cyclone" then (500, 3, 72)
  else (150, 3, 48)

/-- One iteration of the merge loop of `_maybe_merge_incidents`: skip when
the other incident lacks coordinates, is farther than `max_km` (haversine)
or than `max_dist` (SimHash Hamming); otherwise reparent the other
incident's item links (`INSERT OR IGNORE`), delete it (the `ON DELETE
CASCADE` foreign key removes its junction rows), and recount the surviving
incident's item/source counts. -/
def merge_one (hav : ℚ → ℚ → ℚ → ℚ → ℚ) (db : DB) (incident_id : String)
    (ilat ilon : ℚ) (sim_u : Nat) (max_km : ℚ) (max_dist : Nat)
    (other : IncidentRow) : DB :=
  match other.lat, other.lon with
  | some olat, some olon =>
    if hav ilat ilon olat olon > max_km then db
    else if hamming_distance sim_u (i64_to_u64 other.incident_simhash) >
        max_dist then db
    else
      let rows := db.incident_items.filter (fun l => l.1 == other.incident_id)
      let links1 := rows.foldl (fun ls r => insert_link ls (incident_id, r.2))
        db.incident_items
      let db1 : DB :=
        { db with
            incident_items := links1.filter (fun l => l.1 != other.incident_id),
            incidents := db.incidents.filter
              (fun inc => inc.incident_id != other.incident_id) }
      let counts := junction_counts db1 incident_id
      let recounted := mapIncident db1.incidents incident_id
        (fun inc => { inc with item_count := counts.1, source_count := counts.2 })
      { db1 with incidents := recounted }
  | _, _ => db

/-- `_maybe_merge_incidents` from clusterer.py: look up the surviving
incident, skip when it has no coordinates, then fold the merge step over
the (snapshot) list of same-category same-bucket recent other incidents,
capped at 50. -/
def maybe_merge_incidents (hav : ℚ → ℚ → ℚ → ℚ → ℚ) (now : Int) (db : DB)
    (incident_id : String) : DB :=
  match db.incidents.find? (fun inc => inc.incident_id == incident_id) with
  | none => db
  | some incident =>
    match incident.lat, incident.lon with
    | some ilat, some ilon =>
      let p := merge_params incident.category
      let cutoff := now - p.2.2 * 3600
      let sim_u := i64_to_u64 incident.incident_simhash
      let bucket := pyBucket sim_u
      let others := (db.incidents.filter (fun o =>
        o.category == incident.category &&
          o.incident_id != incident_id &&
          decide (o.last_seen_at ≥ cutoff) &&
          sqlBucket o.incident_simhash == (bucket : Int))).take 50
      others.foldl
        (fun acc other =>
          merge_one hav acc incident_id ilat ilon sim_u p.1 p.2.1 other)
        db
    | _, _ => db

/-- The result of `assign_item_to_incident`: the new database state, the
event type and the incident id (`none` models the `ValueError` raises). -/
structure ClusterOutcome where
  db : DB
  event_type : String
  incident_id : String
deriving Repr, DecidableEq

/-- `assign_item_to_incident` from clusterer.py: look up the item, query
candidates by category/lookback/bucket, pick the minimum-Hamming candidate,
decide tight/loose match, then either insert a fresh incident (`fresh`
models `uuid4`) with its junction row, or link the item, update the matched
incident's fields, recount, apply the wildfire density bonus and attempt
merges.  `tokenHash` models the `blake2b` token digest and `hav` the
haversine distance. -/
def assign_item_to_incident (tokenHash : String → Nat)
    (hav : ℚ → ℚ → ℚ → ℚ → ℚ) (now : Int) (fresh : String) (db : DB)
    (item_id : String) : Option ClusterOutcome :=
  match db.items.find? (fun it => it.item_id == item_id) with
  | none => none
  | some item =>
    let u := i64_to_u64 item.simhash
    let candidates := candidate_incidents now db.incidents item.category
      (pyBucket u)
    let matched := match_decision item.category item.title item.summary u
      candidates
    match matched with
    | none =>
      let created : DB := { db with
        incidents := db.incidents ++ [new_incident_row now fresh item],
        incident_items := db.incident_items ++ [(fresh, item_id)] }
      some { db := created, event_type := "incident.created",
             incident_id := fresh }
    | some incident_id =>
      let db1 : DB := { db with
        incident_items := insert_link db.incident_items (incident_id, item_id) }
      match db1.incidents.find? (fun inc => inc.incident_id == incident_id) with
      | none => none
      | some incident =>
        let updated := update_incident_fields tokenHash now incident item
        let db2 : DB := { db1 with
          incidents := mapIncident db1.incidents incident_id (fun _ => updated) }
        let counts := junction_counts db2 incident_id
        let recounted := mapIncident db2.incidents incident_id
          (fun inc => { inc with item_count := counts.1, source_count := counts.2 })
        let db3 : DB := { db2 with incidents := recounted }
        let bonus := mapIncident db3.incidents incident_id
          (fun inc =>
            { inc with
                severity_score :=
                  min 100 (updated.severity_score + min 20 ((counts.1 : Int) / 10)) })
        let db4 : DB :=
          if item.category == "wildfire" then { db3 with incidents := bonus }
          else db3
        let db5 := maybe_merge_incidents hav now db4 incident_id
        some { db := db5, event_type := "incident.updated",
               incident_id := incident_id }

/-! ## C3: the matching rule of assign_item_to_incident -/

theorem bit_count64_le (n : Nat) : bit_count64 n ≤ 64 := by
  have h := List.length_filter_le (fun i => n.testBit i) (List.range 64)
  simpa [bit_count64] using h

theorem select_best_fold_invariant (u : Nat) (cands : List IncidentRow) :
    ∀ acc : Option IncidentRow × Nat,
      (cands.foldl (select_best_step u) acc).2 ≤ acc.2 ∧
      (∀ c ∈ cands,
        (cands.foldl (select_best_step u) acc).2 ≤
          hamming_distance u (i64_to_u64 c.incident_simhash)) ∧
      (∀ b, (cands.foldl (select_best_step u) acc).1 = some b →
        (b ∈ cands ∧ (cands.foldl (select_best_step u) acc).2 =
          hamming_distance u (i64_to_u64 b.incident_simhash)) ∨
        (acc.1 = some b ∧ cands.foldl (select_best_step u) acc = acc)) ∧
      ((cands.foldl (select_best_step u) acc).1 = none →
        cands.foldl (select_best_step u) acc = acc ∧
        ∀ c ∈ cands, acc.2 ≤ hamming_distance u (i64_to_u64 c.incident_simhash)) := by
  induction cands with
  | nil =>
    intro acc
    refine ⟨le_refl _, by simp, ?_, ?_⟩
    · intro b hb
      exact Or.inr ⟨hb, rfl⟩
    · intro _
      exact ⟨rfl, by simp⟩
  | cons c cs ih =>
    intro acc
    rw [List.foldl_cons]
    obtain ⟨ih1, ih2, ih3, ih4⟩ := ih (select_best_step u acc c)
    by_cases hlt : hamming_distance u (i64_to_u64 c.incident_simhash) < acc.2
    · have hstep : select_best_step u acc c =
          (some c, hamming_distance u (i64_to_u64 c.incident_simhash)) := by
        rw [select_best_step, if_pos hlt]
      refine ⟨?_, ?_, ?_, ?_⟩
      · calc (cs.foldl (select_best_step u) (select_best_step u acc c)).2
            ≤ (select_best_step u acc c).2 := ih1
          _ ≤ acc.2 := by rw [hstep]; exact le_of_lt hlt
      · intro x hx
        rcases List.mem_cons.mp hx with hxc | hxcs
        · rw [hxc]
          calc (cs.foldl (select_best_step u) (select_best_step u acc c)).2
              ≤ (select_best_step u acc c).2 := ih1
            _ = hamming_distance u (i64_to_u64 c.incident_simhash) := by rw [hstep]
        · exact ih2 x hxcs
      · intro b hb
        rcases ih3 b hb with ⟨hmem, hd⟩ | ⟨hacc, heq⟩
        · exact Or.inl ⟨List.mem_cons_of_mem _ hmem, hd⟩
        · rw [hstep] at hacc heq
          simp only [Option.some.injEq] at hacc
          refine Or.inl ⟨?_, ?_⟩
          · rw [← hacc]
            exact List.mem_cons_self _ _
          · rw [hstep, heq, ← hacc]
      · intro hnone
        obtain ⟨heq, -⟩ := ih4 hnone
        rw [heq, hstep] at hnone
        simp at hnone
    · have hstep : select_best_step u acc c = acc := by
        rw [select_best_step, if_neg hlt]
      rw [hstep] at ih1 ih2 ih3 ih4 ⊢
      refine ⟨ih1, ?_, ?_, ?_⟩
      · intro x hx
        rcases List.mem_cons.mp hx with hxc | hxcs
        · rw [hxc]
          exact le_trans ih1 (le_of_not_lt hlt)
        · exact ih2 x hxcs
      · intro b hb
        rcases ih3 b hb with ⟨hmem, hd⟩ | ⟨hacc, heq⟩
        · exact Or.inl ⟨List.mem_cons_of_mem _ hmem, hd⟩
        · exact Or.inr ⟨hacc, heq⟩
      · intro hnone
        obtain ⟨heq, hall⟩ := ih4 hnone
        refine ⟨heq, ?_⟩
        intro x hx
        rcases List.mem_cons.mp hx with hxc | hxcs
        · rw [hxc]
          exact le_of_not_lt hlt
        · exact hall x hxcs

theorem select_best_spec (u : Nat) (cands : List IncidentRow) :
    (∀ b, (select_best u cands).1 = some b →
      b ∈ cands ∧
      (select_best u cands).2 =
        hamming_distance u (i64_to_u64 b.incident_simhash) ∧
      ∀ c ∈ cands, (select_best u cands).2 ≤
        hamming_distance u (i64_to_u64 c.incident_simhash)) ∧
    ((select_best u cands).1 = none ↔ cands = []) := by
  obtain ⟨h1, h2, h3, h4⟩ := select_best_fold_invariant u cands (none, 10000)
  constructor
  · intro b hb
    rcases h3 b hb with ⟨hmem, hd⟩ | ⟨hacc, -⟩
    · exact ⟨hmem, hd, h2⟩
    · exact absurd hacc (by simp)
  · constructor
    · intro hnone
      obtain ⟨-, hall⟩ := h4 hnone
      by_contra hne
      obtain ⟨c, hc⟩ := List.exists_mem_of_ne_nil _ hne
      have hle : hamming_distance u (i64_to_u64 c.incident_simhash) ≤ 64 :=
        bit_count64_le _
      have := hall c hc
      omega
    · intro h
      subst h
      rfl

theorem mem_candidate_incidents (now : Int) (incs : List IncidentRow)
    (cat : String) (bucket : Nat) (b : IncidentRow)
    (hb : b ∈ candidate_incidents now incs cat bucket) : b ∈ incs := by
  simp only [candidate_incidents] at hb
  have h1 := List.take_subset 200 _ hb
  have h2 := (List.perm_insertionSort
    (fun a b : IncidentRow => b.last_seen_at ≤ a.last_seen_at) _).mem_iff.mp h1
  exact List.mem_filter.mp h2 |>.1

theorem match_decision_eq_some (cat t s : String) (u : Nat)
    (cands : List IncidentRow) (mid : String)
    (h : match_decision cat t s u cands = some mid) :
    ∃ b, (select_best u cands).1 = some b ∧ mid = b.incident_id := by
  rw [match_decision] at h
  rcases hsb : (select_best u cands).1 with - | b
  · rw [hsb] at h
    simp at h
  · rw [hsb] at h
    refine ⟨b, rfl, ?_⟩
    split_ifs at h <;> simp_all

theorem match_decision_cases (cat t s : String) (u : Nat)
    (cands : List IncidentRow) (b : IncidentRow)
    (hb : (select_best u cands).1 = some b) :
    (match_decision cat t s u cands = some b.incident_id ∧
      ((select_best u cands).2 ≤ (match_thresholds cat).1 ∨
       ((match_thresholds cat).1 < (select_best u cands).2 ∧
        (select_best u cands).2 ≤ (match_thresholds cat).2.1 ∧
        token_jaccard (t ++ " " ++ s) (b.title ++ " " ++ b.summary) ≥
          (match_thresholds cat).2.2))) ∨
    (match_decision cat t s u cands = none ∧
      ¬((select_best u cands).2 ≤ (match_thresholds cat).1 ∨
        ((match_thresholds cat).1 < (select_best u cands).2 ∧
         (select_best u cands).2 ≤ (match_thresholds cat).2.1 ∧
         token_jaccard (t ++ " " ++ s) (b.title ++ " " ++ b.summary) ≥
           (match_thresholds cat).2.2))) := by
  have hmd : match_decision cat t s u cands =
      (if (select_best u cands).2 ≤ (match_thresholds cat).1 then
        some b.incident_id
      else if (match_thresholds cat).1 < (select_best u cands).2 ∧
          (select_best u cands).2 ≤ (match_thresholds cat).2.1 then
        (if token_jaccard (t ++ " " ++ s) (b.title ++ " " ++ b.summary) ≥
            (match_thresholds cat).2.2 then
          some b.incident_id
        else none)
      else none) := by
    rw [match_decision, hb]
  rw [hmd]
  by_cases h1 : (select_best u cands).2 ≤ (match_thresholds cat).1
  · rw [if_pos h1]
    exact Or.inl ⟨rfl, Or.inl h1⟩
  · rw [if_neg h1]
    by_cases h2 : (match_thresholds cat).1 < (select_best u cands).2 ∧
        (select_best u cands).2 ≤ (match_thresholds cat).2.1
    · rw [if_pos h2]
      by_cases h3 : token_jaccard (t ++ " " ++ s)
          (b.title ++ " " ++ b.summary) ≥ (match_thresholds cat).2.2
      · rw [if_pos h3]
        exact Or.inl ⟨rfl, Or.inr ⟨h2.1, h2.2, h3⟩⟩
      · rw [if_neg h3]
        refine Or.inr ⟨rfl, ?_⟩
        rintro (h | ⟨-, -, hj⟩)
        · exact h1 h
        · exact h3 hj
    · rw [if_neg h2]
      refine Or.inr ⟨rfl, ?_⟩
      rintro (h | ⟨ha, hbb, -⟩)
      · exact h1 h
      · exact h2 ⟨ha, hbb⟩


theorem assign_created_eq (tokenHash : String → Nat)
    (hav : ℚ → ℚ → ℚ → ℚ → ℚ) (now : Int) (fresh : String) (db : DB)
    (item_id : String) (item : ItemRow)
    (hitem : db.items.find? (fun it => it.item_id == item_id) = some item)
    (hmd : match_decision item.category item.title item.summary
      (i64_to_u64 item.simhash)
      (candidate_incidents now db.incidents item.category
        (pyBucket (i64_to_u64 item.simhash))) = none) :
    assign_item_to_incident tokenHash hav now fresh db item_id =
      some { db := { db with
               incidents := db.incidents ++ [new_incident_row now fresh item],
               incident_items := db.incident_items ++ [(fresh, item_id)] },
             event_type := "incident.created", incident_id := fresh } := by
  rw [assign_item_to_incident.eq_def, hitem]
  simp only [hmd]

theorem assign_updated_eq (tokenHash : String → Nat)
    (hav : ℚ → ℚ → ℚ → ℚ → ℚ) (now : Int) (fresh : String) (db : DB)
    (item_id : String) (item : ItemRow)
    (hitem : db.items.find? (fun it => it.item_id == item_id) = some item)
    (mid : String)
    (hmd : match_decision item.category item.title item.summary
      (i64_to_u64 item.simhash)
      (candidate_incidents now db.incidents item.category
        (pyBucket (i64_to_u64 item.simhash))) = some mid)
    (inc : IncidentRow)
    (hfind2 : db.incidents.find? (fun i => i.incident_id == mid) = some inc) :
    ∃ out, assign_item_to_incident tokenHash hav now fresh db item_id =
        some out ∧
      out.event_type = "incident.updated" ∧ out.incident_id = mid := by
  rw [assign_item_to_incident.eq_def, hitem]
  simp only [hmd, hfind2]
  exact ⟨_, rfl, rfl, rfl⟩

/-- C3: for a freshly inserted item, `assign_item_to_incident` selects among
the candidate incidents (same category, same SimHash bucket, within the
lookback) the one with minimum Hamming distance to the item's SimHash, and
matches the item to it iff that distance is at most the category's tight
threshold (news 4; earthquake/volcano/tsunami 8; other 6), or the distance
lies strictly above the tight threshold and at most the loose threshold
(news 10; earthquake/volcano/tsunami 14; other 12) and the token-set
Jaccard of item `title+summary` versus candidate `title+summary` meets the
category floor (news 0.60; earthquake/volcano/tsunami 0.40; other 0.45);
otherwise it creates a new incident with `item_count = 1`,
`source_count = 1` and status `"active"`. -/
theorem assign_match_rule (tokenHash : String → Nat)
    (hav : ℚ → ℚ → ℚ → ℚ → ℚ) (now : Int) (fresh : String) (db : DB)
    (item_id : String) (item : ItemRow)
    (hitem : db.items.find? (fun it => it.item_id == item_id) = some item)
    (u : Nat) (hu : u = i64_to_u64 item.simhash)
    (cands : List IncidentRow)
    (hcands : cands = candidate_incidents now db.incidents item.category
      (pyBucket u)) :
    (∀ b, (select_best u cands).1 = some b →
      b ∈ cands ∧
      (select_best u cands).2 =
        hamming_distance u (i64_to_u64 b.incident_simhash) ∧
      ∀ c ∈ cands, (select_best u cands).2 ≤
        hamming_distance u (i64_to_u64 c.incident_simhash)) ∧
    ((select_best u cands).1 = none ↔ cands = []) ∧
    (item.category = "news" →
      match_thresholds item.category = (4, 10, 6 / 10)) ∧
    (item.category = "earthquake" ∨ item.category = "volcano" ∨
        item.category = "tsunami" →
      match_thresholds item.category = (8, 14, 4 / 10)) ∧
    (item.category ≠ "news" → item.category ≠ "earthquake" →
        item.category ≠ "volcano" → item.category ≠ "tsunami" →
      match_thresholds item.category = (6, 12, 45 / 100)) ∧
    (∀ b, (select_best u cands).1 = some b →
      ((∃ out, assign_item_to_incident tokenHash hav now fresh db item_id =
          some out ∧
          out.event_type = "incident.updated" ∧
          out.incident_id = b.incident_id) ↔
        ((select_best u cands).2 ≤ (match_thresholds item.category).1 ∨
         ((match_thresholds item.category).1 < (select_best u cands).2 ∧
          (select_best u cands).2 ≤ (match_thresholds item.category).2.1 ∧
          token_jaccard (item.title ++ " " ++ item.summary)
              (b.title ++ " " ++ b.summary) ≥
            (match_thresholds item.category).2.2)))) ∧
    (∀ out, assign_item_to_incident tokenHash hav now fresh db item_id =
        some out →
      out.event_type = "incident.created" →
      out.incident_id = fresh ∧
      ∃ inc ∈ out.db.incidents, inc.incident_id = fresh ∧
        inc.item_count = 1 ∧ inc.source_count = 1 ∧ inc.status = "active") ∧
    (match_decision item.category item.title item.summary u cands = none →
      ∃ out, assign_item_to_incident tokenHash hav now fresh db item_id =
          some out ∧
        out.event_type = "incident.created") := by
  subst hu
  subst hcands
  obtain ⟨hsel, hnone⟩ := select_best_spec (i64_to_u64 item.simhash)
    (candidate_incidents now db.incidents item.category
      (pyBucket (i64_to_u64 item.simhash)))
  refine ⟨hsel, hnone, ?_, ?_, ?_, ?_, ?_, ?_⟩
  · intro h
    rw [match_thresholds, h]
    rfl
  · intro h
    rcases h with h | h | h <;> (rw [match_thresholds, h]; rfl)
  · intro h1 h2 h3 h4
    rw [match_thresholds,
      if_neg (by simp [h1]),
      if_neg (by simp [h2, h3, h4])]
  · intro b hb
    obtain ⟨hmem, hdist, hmin⟩ := hsel b hb
    have hmemdb : b ∈ db.incidents := mem_candidate_incidents _ _ _ _ _ hmem
    rcases match_decision_cases item.category item.title item.summary
        (i64_to_u64 item.simhash) _ b hb with ⟨hmd, hcond⟩ | ⟨hmd, hncond⟩
    · refine iff_of_true ?_ hcond
      have hfs : (db.incidents.find?
          (fun i => i.incident_id == b.incident_id)).isSome = true := by
        rw [List.find?_isSome]
        exact ⟨b, hmemdb, by simp⟩
      obtain ⟨inc, hinc⟩ := Option.isSome_iff_exists.mp hfs
      exact assign_updated_eq tokenHash hav now fresh db item_id item hitem
        b.incident_id hmd inc hinc
    · refine iff_of_false ?_ hncond
      rintro ⟨out, hout, hty, -⟩
      rw [assign_created_eq tokenHash hav now fresh db item_id item hitem hmd]
        at hout
      simp only [Option.some.injEq] at hout
      rw [← hout] at hty
      simp at hty
  · intro out hout hty
    rcases hmd : match_decision item.category item.title item.summary
        (i64_to_u64 item.simhash)
        (candidate_incidents now db.incidents item.category
          (pyBucket (i64_to_u64 item.simhash))) with - | mid
    · rw [assign_created_eq tokenHash hav now fresh db item_id item hitem hmd]
        at hout
      simp only [Option.some.injEq] at hout
      subst hout
      refine ⟨rfl, new_incident_row now fresh item, ?_, rfl, rfl, rfl, rfl⟩
      simp
    · obtain ⟨b, hb, hmid⟩ := match_decision_eq_some _ _ _ _ _ _ hmd
      obtain ⟨hmem, -, -⟩ := hsel b hb
      have hmemdb : b ∈ db.incidents := mem_candidate_incidents _ _ _ _ _ hmem
      have hfs : (db.incidents.find?
          (fun i => i.incident_id == mid)).isSome = true := by
        rw [List.find?_isSome]
        exact ⟨b, hmemdb, by rw [hmid]; simp⟩
      obtain ⟨inc, hinc⟩ := Option.isSome_iff_exists.mp hfs
      obtain ⟨out', hout', hty', -⟩ := assign_updated_eq tokenHash hav now
        fresh db item_id item hitem mid hmd inc hinc
      rw [hout'] at hout
      simp only [Option.some.injEq] at hout
      rw [← hout] at hty
      rw [hty'] at hty
      simp at hty
  · intro hmd
    exact ⟨_, assign_created_eq tokenHash hav now fresh db item_id item hitem
      hmd, rfl⟩

/-- Item used by the C3 witness. -/
def w3item : ItemRow :=
  { item_id := "w3i", source_id := "s", external_id := none, url := "u",
    title := "quake", summary := "", category := "disaster",
    published_at := 0, lat := none, lon := none, geom := none,
    location_confidence := "U_unknown", location_rationale := "", raw := {},
    hash_title := "h", simhash := 7 }

/-- Database used by the C3 witness. -/
def w3db : DB := { items := [w3item], incidents := [], incident_items := [] }

/-- Witness for C3: with no candidate incidents the item creates a fresh
incident with counts 1/1 and status `"active"`. -/
theorem assign_match_rule_witness :
    ∃ out, assign_item_to_incident (fun _ => 0) (fun _ _ _ _ => 0) 0 "f1"
        w3db "w3i" = some out ∧
      out.event_type = "incident.created" ∧ out.incident_id = "f1" ∧
      ∃ inc ∈ out.db.incidents, inc.incident_id = "f1" ∧
        inc.item_count = 1 ∧ inc.source_count = 1 ∧ inc.status = "active" := by
  have h := assign_match_rule (fun _ => 0) (fun _ _ _ _ => 0) 0 "f1" w3db
    "w3i" w3item (by rfl) _ rfl _ rfl
  obtain ⟨out, hout, hty⟩ := h.2.2.2.2.2.2.2 (by rfl)
  obtain ⟨hid, hinc⟩ := h.2.2.2.2.2.2.1 out hout hty
  exact ⟨out, hout, hty, hid, hinc⟩

/-! ## C7: location-confidence ladder monotonicity -/

theorem update_incident_fields_promotion (tokenHash : String → Nat)
    (now : Int) (incident : IncidentRow) (item : ItemRow) :
    location_rank incident.location_confidence ≤
      location_rank
        (update_incident_fields tokenHash now incident item).location_confidence ∧
    (location_rank item.location_confidence ≤
        location_rank incident.location_confidence →
      (update_incident_fields tokenHash now incident item).location_confidence =
          incident.location_confidence ∧
      (update_incident_fields tokenHash now incident item).location_rationale =
          incident.location_rationale ∧
      (update_incident_fields tokenHash now incident item).geom = incident.geom ∧
      (item.geom.bind bbox_from_geojson = none →
        (update_incident_fields tokenHash now incident item).lat = incident.lat ∧
        (update_incident_fields tokenHash now incident item).lon = incident.lon)) ∧
    (location_rank incident.location_confidence <
        location_rank item.location_confidence →
      (update_incident_fields tokenHash now incident item).location_confidence =
          item.location_confidence ∧
      (update_incident_fields tokenHash now incident item).location_rationale =
          item.location_rationale ∧
      (update_incident_fields tokenHash now incident item).geom = item.geom) := by
  by_cases hr : location_rank item.location_confidence >
      location_rank incident.location_confidence
  · rcases hib : item.geom.bind bbox_from_geojson with - | b
    · have he : update_incident_fields tokenHash now incident item =
          { incident with
              summary := incident_summary_from_item item.category item.title
                item.summary,
              last_seen_at := now,
              last_item_at := max incident.last_item_at item.published_at,
              severity_score := max incident.severity_score
                (severity_score item.category item.raw),
              geom := item.geom,
              lat := item.lat,
              lon := item.lon,
              bbox := incident.bbox,
              location_confidence := item.location_confidence,
              location_rationale := item.location_rationale,
              incident_simhash := u64_to_i64 (simhash64 tokenHash
                (incident.title ++ " " ++
                  incident_summary_from_item item.category item.title
                    item.summary)),
              token_signature := token_signature
                (incident_summary_from_item item.category item.title
                  item.summary) } := by
        rw [update_incident_fields, if_pos hr, hib]
      rw [he]
      refine ⟨le_of_lt hr, ?_, ?_⟩
      · intro hle
        omega
      · intro _
        exact ⟨rfl, rfl, rfl⟩
    · have he : (update_incident_fields tokenHash now incident
            item).location_confidence = item.location_confidence ∧
          (update_incident_fields tokenHash now incident
            item).location_rationale = item.location_rationale ∧
          (update_incident_fields tokenHash now incident item).geom =
            item.geom := by
        rw [update_incident_fields, if_pos hr, hib]
        rcases incident.bbox with - | cur <;> exact ⟨rfl, rfl, rfl⟩
      refine ⟨?_, ?_, fun _ => he⟩
      · rw [he.1]
        exact le_of_lt hr
      · intro hle
        omega
  · have hnr : ¬(location_rank item.location_confidence >
        location_rank incident.location_confidence) := hr
    rcases hib : item.geom.bind bbox_from_geojson with - | b
    · have he : update_incident_fields tokenHash now incident item =
          { incident with
              summary := incident_summary_from_item item.category item.title
                item.summary,
              last_seen_at := now,
              last_item_at := max incident.last_item_at item.published_at,
              severity_score := max incident.severity_score
                (severity_score item.category item.raw),
              incident_simhash := u64_to_i64 (simhash64 tokenHash
                (incident.title ++ " " ++
                  incident_summary_from_item item.category item.title
                    item.summary)),
              token_signature := token_signature
                (incident_summary_from_item item.category item.title
                  item.summary) } := by
        rw [update_incident_fields, if_neg hnr, hib]
      rw [he]
      exact ⟨le_refl _, fun _ => ⟨rfl, rfl, rfl, fun _ => ⟨rfl, rfl⟩⟩,
        fun hlt => absurd hlt hnr⟩
    · have he : (update_incident_fields tokenHash now incident
            item).location_confidence = incident.location_confidence ∧
          (update_incident_fields tokenHash now incident
            item).location_rationale = incident.location_rationale ∧
          (update_incident_fields tokenHash now incident item).geom =
            incident.geom := by
        rw [update_incident_fields, if_neg hnr, hib]
        rcases incident.bbox with - | cur <;> exact ⟨rfl, rfl, rfl⟩
      refine ⟨by rw [he.1], ?_, fun hlt => absurd hlt hnr⟩
      intro _
      refine ⟨he.1, he.2.1, he.2.2, ?_⟩
      intro hnone
      simp [hib] at hnone

/-- Rows of `l'` trace back to rows of `l` with the same id and
equal-or-improved location rank. -/
def rank_traceable (lnew lold : List IncidentRow) : Prop :=
  ∀ incNew ∈ lnew, ∃ incOld ∈ lold,
    incNew.incident_id = incOld.incident_id ∧
    location_rank incOld.location_confidence ≤
      location_rank incNew.location_confidence

theorem rank_traceable_refl (l : List IncidentRow) : rank_traceable l l :=
  fun inc h => ⟨inc, h, rfl, le_refl _⟩

theorem rank_traceable_trans {l1 l2 l3 : List IncidentRow}
    (h12 : rank_traceable l1 l2) (h23 : rank_traceable l2 l3) :
    rank_traceable l1 l3 := by
  intro inc1 h1
  obtain ⟨inc2, h2, hid12, hr12⟩ := h12 inc1 h1
  obtain ⟨inc3, h3, hid23, hr23⟩ := h23 inc2 h2
  exact ⟨inc3, h3, hid12.trans hid23, le_trans hr23 hr12⟩

theorem rank_traceable_mapIncident (l : List IncidentRow) (id : String)
    (f : IncidentRow → IncidentRow)
    (hf : ∀ r ∈ l, r.incident_id == id →
      (f r).incident_id = r.incident_id ∧
      location_rank r.location_confidence ≤
        location_rank (f r).location_confidence) :
    rank_traceable (mapIncident l id f) l := by
  intro inc' hinc'
  rw [mapIncident] at hinc'
  obtain ⟨r, hr, heq⟩ := List.mem_map.mp hinc'
  by_cases hid : (r.incident_id == id) = true
  · rw [if_pos hid] at heq
    obtain ⟨h1, h2⟩ := hf r hr hid
    exact ⟨r, hr, by rw [← heq, h1], by rw [← heq]; exact h2⟩
  · rw [if_neg hid] at heq
    exact ⟨r, hr, by rw [← heq], by rw [← heq]⟩

theorem rank_traceable_filter (l : List IncidentRow) (p : IncidentRow → Bool) :
    rank_traceable (l.filter p) l :=
  fun inc h => ⟨inc, List.mem_filter.mp h |>.1, rfl, le_refl _⟩

theorem merge_one_traceable (hav : ℚ → ℚ → ℚ → ℚ → ℚ) (db : DB)
    (incident_id : String) (ilat ilon : ℚ) (sim_u : Nat) (max_km : ℚ)
    (max_dist : Nat) (other : IncidentRow) :
    rank_traceable
      (merge_one hav db incident_id ilat ilon sim_u max_km max_dist
        other).incidents db.incidents := by
  rw [merge_one]
  split
  · split_ifs
    · exact rank_traceable_refl _
    · exact rank_traceable_refl _
    · dsimp only
      refine rank_traceable_trans
        (rank_traceable_mapIncident _ _ _ (fun r _ _ => ⟨rfl, le_refl _⟩))
        (rank_traceable_filter db.incidents
          (fun inc => inc.incident_id != other.incident_id))
  · exact rank_traceable_refl _

theorem merge_fold_traceable (hav : ℚ → ℚ → ℚ → ℚ → ℚ)
    (incident_id : String) (ilat ilon : ℚ) (sim_u : Nat) (max_km : ℚ)
    (max_dist : Nat) (others : List IncidentRow) :
    ∀ db : DB,
      rank_traceable
        (others.foldl
          (fun acc other =>
            merge_one hav acc incident_id ilat ilon sim_u max_km max_dist
              other)
          db).incidents db.incidents := by
  induction others with
  | nil => exact fun db => rank_traceable_refl _
  | cons o os ih =>
    intro db
    rw [List.foldl_cons]
    exact rank_traceable_trans
      (ih (merge_one hav db incident_id ilat ilon sim_u max_km max_dist o))
      (merge_one_traceable hav db incident_id ilat ilon sim_u max_km
        max_dist o)

theorem maybe_merge_traceable (hav : ℚ → ℚ → ℚ → ℚ → ℚ) (now : Int)
    (db : DB) (incident_id : String) :
    rank_traceable (maybe_merge_incidents hav now db incident_id).incidents
      db.incidents := by
  rw [maybe_merge_incidents]
  split
  · exact rank_traceable_refl _
  · split
    · dsimp only
      exact merge_fold_traceable hav incident_id _ _ _ _ _ _ db
    · exact rank_traceable_refl _

/-- The database state produced by the matched-update path of
`assign_item_to_incident` (factored for reasoning; mirrors the body of the
update branch exactly). -/
def assign_update_db (tokenHash : String → Nat) (hav : ℚ → ℚ → ℚ → ℚ → ℚ)
    (now : Int) (db : DB) (item_id mid : String) (incident : IncidentRow)
    (item : ItemRow) : DB :=
  let db1 : DB := { db with
    incident_items := insert_link db.incident_items (mid, item_id) }
  let updated := update_incident_fields tokenHash now incident item
  let db2 : DB := { db1 with
    incidents := mapIncident db1.incidents mid (fun _ => updated) }
  let counts := junction_counts db2 mid
  let recounted := mapIncident db2.incidents mid
    (fun inc => { inc with item_count := counts.1, source_count := counts.2 })
  let db3 : DB := { db2 with incidents := recounted }
  let bonus := mapIncident db3.incidents mid
    (fun inc =>
      { inc with
          severity_score :=
            min 100 (updated.severity_score + min 20 ((counts.1 : Int) / 10)) })
  let db4 : DB :=
    if item.category == "wildfire" then { db3 with incidents := bonus }
    else db3
  maybe_merge_incidents hav now db4 mid

theorem assign_updated_db_eq (tokenHash : String → Nat)
    (hav : ℚ → ℚ → ℚ → ℚ → ℚ) (now : Int) (fresh : String) (db : DB)
    (item_id : String) (item : ItemRow)
    (hitem : db.items.find? (fun it => it.item_id == item_id) = some item)
    (mid : String)
    (hmd : match_decision item.category item.title item.summary
      (i64_to_u64 item.simhash)
      (candidate_incidents now db.incidents item.category
        (pyBucket (i64_to_u64 item.simhash))) = some mid)
    (incident : IncidentRow)
    (hfind2 : db.incidents.find? (fun i => i.incident_id == mid) =
      some incident) :
    assign_item_to_incident tokenHash hav now fresh db item_id =
      some { db := assign_update_db tokenHash hav now db item_id mid incident
               item,
             event_type := "incident.updated", incident_id := mid } := by
  rw [assign_item_to_incident.eq_def, hitem]
  simp only [hmd, hfind2]
  rfl

theorem eq_of_mem_nodup_ids {l : List IncidentRow}
    (h : (l.map (fun i => i.incident_id)).Nodup) {a b : IncidentRow}
    (ha : a ∈ l) (hb : b ∈ l) (hid : a.incident_id = b.incident_id) :
    a = b :=
  List.inj_on_of_nodup_map h ha hb hid

theorem assign_update_db_traceable (tokenHash : String → Nat)
    (hav : ℚ → ℚ → ℚ → ℚ → ℚ) (now : Int) (db : DB) (item_id mid : String)
    (incident : IncidentRow) (item : ItemRow)
    (hpk : (db.incidents.map (fun i => i.incident_id)).Nodup)
    (hincmem : incident ∈ db.incidents)
    (hincid : incident.incident_id = mid) :
    rank_traceable
      (assign_update_db tokenHash hav now db item_id mid incident
        item).incidents
      db.incidents := by
  have h1 : rank_traceable
      (mapIncident db.incidents mid
        (fun _ => update_incident_fields tokenHash now incident item))
      db.incidents := by
    refine rank_traceable_mapIncident _ _ _ ?_
    intro r hr hid
    have hreq : r = incident := by
      refine eq_of_mem_nodup_ids hpk hr hincmem ?_
      rw [beq_iff_eq] at hid
      rw [hid, hincid]
    constructor
    · rw [hreq]
      rfl
    · rw [hreq]
      exact (update_incident_fields_promotion tokenHash now incident item).1
  rw [assign_update_db]
  dsimp only
  by_cases hw : (item.category == "wildfire") = true
  · rw [if_pos hw]
    refine rank_traceable_trans (maybe_merge_traceable hav now _ mid) ?_
    dsimp only
    refine rank_traceable_trans
      (rank_traceable_mapIncident _ _ _ (fun r _ _ => ⟨rfl, le_refl _⟩)) ?_
    refine rank_traceable_trans
      (rank_traceable_mapIncident _ _ _ (fun r _ _ => ⟨rfl, le_refl _⟩)) ?_
    exact h1
  · rw [if_neg hw]
    refine rank_traceable_trans (maybe_merge_traceable hav now _ mid) ?_
    dsimp only
    refine rank_traceable_trans
      (rank_traceable_mapIncident _ _ _ (fun r _ _ => ⟨rfl, le_refl _⟩)) ?_
    exact h1

/-- C7: the ladder rank of an incident's `location_confidence`
(`A_exact` 30, `B_*` 20, `C_*` 10, else 0) never decreases across
`assign_item_to_incident` (including its merge step): every incident
present before and after the call has equal-or-higher rank after; the
matched update replaces geometry, lat/lon, confidence and rationale with
the item's values only when the item's rank is strictly higher than the
incident's (otherwise they are left unchanged, lat/lon moving only through
the documented bbox-centroid recompute); and merges never change a
surviving incident's rank. -/
theorem incident_rank_monotonic (tokenHash : String → Nat)
    (hav : ℚ → ℚ → ℚ → ℚ → ℚ) (now : Int) (fresh : String) (db : DB)
    (item_id : String)
    (hpk : (db.incidents.map (fun i => i.incident_id)).Nodup)
    (hfresh : ∀ inc ∈ db.incidents, inc.incident_id ≠ fresh) :
    (∀ out, assign_item_to_incident tokenHash hav now fresh db item_id =
        some out →
      ∀ incNew ∈ out.db.incidents, ∀ incOld ∈ db.incidents,
        incNew.incident_id = incOld.incident_id →
        location_rank incOld.location_confidence ≤
          location_rank incNew.location_confidence) ∧
    (∀ (incident : IncidentRow) (item : ItemRow),
      location_rank incident.location_confidence ≤
        location_rank
          (update_incident_fields tokenHash now incident
            item).location_confidence ∧
      (location_rank item.location_confidence ≤
          location_rank incident.location_confidence →
        (update_incident_fields tokenHash now incident
            item).location_confidence = incident.location_confidence ∧
        (update_incident_fields tokenHash now incident
            item).location_rationale = incident.location_rationale ∧
        (update_incident_fields tokenHash now incident item).geom =
          incident.geom ∧
        (item.geom.bind bbox_from_geojson = none →
          (update_incident_fields tokenHash now incident item).lat =
            incident.lat ∧
          (update_incident_fields tokenHash now incident item).lon =
            incident.lon)) ∧
      (location_rank incident.location_confidence <
          location_rank item.location_confidence →
        (update_incident_fields tokenHash now incident
            item).location_confidence = item.location_confidence ∧
        (update_incident_fields tokenHash now incident
            item).location_rationale = item.location_rationale ∧
        (update_incident_fields tokenHash now incident item).geom =
          item.geom)) ∧
    (∀ (db' : DB) (id : String),
      rank_traceable (maybe_merge_incidents hav now db' id).incidents
        db'.incidents) := by
  refine ⟨?_, fun incident item =>
      update_incident_fields_promotion tokenHash now incident item,
    fun db' id => maybe_merge_traceable hav now db' id⟩
  intro out hout incNew hNew incOld hOld hid
  rcases hfind : db.items.find? (fun it => it.item_id == item_id) with - | item
  · rw [assign_item_to_incident.eq_def, hfind] at hout
    simp at hout
  · rcases hmd : match_decision item.category item.title item.summary
        (i64_to_u64 item.simhash)
        (candidate_incidents now db.incidents item.category
          (pyBucket (i64_to_u64 item.simhash))) with - | mid
    · rw [assign_created_eq tokenHash hav now fresh db item_id item hfind hmd]
        at hout
      simp only [Option.some.injEq] at hout
      subst hout
      rcases List.mem_append.mp hNew with h | h
      · have heq : incNew = incOld := eq_of_mem_nodup_ids hpk h hOld hid
        rw [heq]
      · have hnew : incNew = new_incident_row now fresh item := by
          simpa using h
        have hni : (new_incident_row now fresh item).incident_id = fresh := rfl
        rw [hnew, hni] at hid
        exact absurd hid.symm (hfresh incOld hOld)
    · obtain ⟨b, hb, hmid⟩ := match_decision_eq_some _ _ _ _ _ _ hmd
      obtain ⟨hmem, -, -⟩ := (select_best_spec (i64_to_u64 item.simhash) _).1
        b hb
      have hmemdb : b ∈ db.incidents :=
        mem_candidate_incidents _ _ _ _ _ hmem
      have hfs : (db.incidents.find?
          (fun i => i.incident_id == mid)).isSome = true := by
        rw [List.find?_isSome]
        exact ⟨b, hmemdb, by rw [hmid]; simp⟩
      obtain ⟨incident, hfind2⟩ := Option.isSome_iff_exists.mp hfs
      have hincmem : incident ∈ db.incidents :=
        List.mem_of_find?_eq_some hfind2
      have hincid : incident.incident_id = mid := by
        have := List.find?_some hfind2
        rwa [beq_iff_eq] at this
      rw [assign_updated_db_eq tokenHash hav now fresh db item_id item hfind
        mid hmd incident hfind2] at hout
      simp only [Option.some.injEq] at hout
      subst hout
      obtain ⟨inc0, hinc0, hid0, hr0⟩ :=
        assign_update_db_traceable tokenHash hav now db item_id mid incident
          item hpk hincmem hincid incNew hNew
      have heq0 : inc0 = incOld :=
        eq_of_mem_nodup_ids hpk hinc0 hOld (by rw [← hid0, hid])
      rw [← heq0]
      exact hr0

/-- Incident used by the C7 witness: country-level confidence (rank 10). -/
def w7inc : IncidentRow :=
  { incident_id := "c7inc", title := "t", summary := "s",
    category := "disaster", first_seen_at := 0, last_seen_at := 0,
    last_item_at := 0, status := "active", severity_score := 10,
    geom := none, lat := some 1, lon := some 2, bbox := none,
    location_confidence := "C_country", location_rationale := "country",
    incident_simhash := 0, token_signature := none, item_count := 1,
    source_count := 1 }

/-- Item used by the C7 witness: exact confidence (rank 30). -/
def w7item : ItemRow :=
  { item_id := "c7it", source_id := "s", external_id := none, url := "u",
    title := "t2", summary := "s2", category := "disaster",
    published_at := 3, lat := some 7, lon := some 8, geom := none,
    location_confidence := "A_exact", location_rationale := "exact",
    raw := {}, hash_title := "h", simhash := 0 }

/-- Witness for C7: an `A_exact` item promotes a `C_country` incident, and
the rank does not decrease. -/
theorem incident_rank_monotonic_witness :
    (update_incident_fields (fun _ => 0) 5 w7inc w7item).location_confidence =
      "A_exact" ∧
    location_rank w7inc.location_confidence ≤
      location_rank
        (update_incident_fields (fun _ => 0) 5 w7inc w7item).location_confidence := by
  have h := incident_rank_monotonic (fun _ => 0) (fun _ _ _ _ => 0) 5 "f"
    { items := [], incidents := [], incident_items := [] } "x"
    (by simp) (by simp)
  have h2 := h.2.1 w7inc w7item
  refine ⟨?_, h2.1⟩
  rw [(h2.2.2 (by decide)).1]
  rfl

/-! ## C2: incident bbox containment -/

/-- The claim's containment of a coordinate in a bbox
(`minlon, minlat, maxlon, maxlat`). -/
def bbox_contains (b : BBox) (lon lat : ℚ) : Bool :=
  decide (b.min_lon ≤ lon) && decide (lon ≤ b.max_lon) &&
  decide (b.min_lat ≤ lat) && decide (lat ≤ b.max_lat)

/-- The claimed invariant, as a decidable check: the bbox of every incident
contains the coordinates (lat/lon, and geometry extent) of every item
linked to it. -/
def bbox_invariant_check (db : DB) : Bool :=
  db.incidents.all (fun inc =>
    db.incident_items.all (fun l =>
      if l.1 == inc.incident_id then
        db.items.all (fun it =>
          if it.item_id == l.2 then
            (match it.lat, it.lon with
             | some la, some lo =>
               (match inc.bbox with
                | some b => bbox_contains b lo la
                | none => false)
             | _, _ => true) &&
            (match it.geom.bind bbox_from_geojson with
             | some ib =>
               (match inc.bbox with
                | some b => bbox_contains b ib.min_lon ib.min_lat &&
                    bbox_contains b ib.max_lon ib.max_lat
                | none => false)
             | none => true)
          else true)
      else true))

/-- Item with a point geometry at the origin (creates the incident). -/
def c2itemA : ItemRow :=
  { item_id := "a", source_id := "sA", external_id := none, url := "ua",
    title := "t", summary := "", category := "disaster", published_at := 0,
    lat := none, lon := none, geom := some (Geom.point 0 0),
    location_confidence := "B_place_match", location_rationale := "",
    raw := {}, hash_title := "ha", simhash := 5 }

/-- Item with coordinates `(50, 50)` but no geometry (joins the incident). -/
def c2itemB : ItemRow :=
  { item_id := "b", source_id := "sB", external_id := none, url := "ub",
    title := "t", summary := "", category := "disaster", published_at := 0,
    lat := some 50, lon := some 50, geom := none,
    location_confidence := "B_place_match", location_rationale := "",
    raw := {}, hash_title := "hb", simhash := 5 }

/-- Initial database for the C2 counterexample. -/
def c2db : DB :=
  { items := [c2itemA, c2itemB], incidents := [], incident_items := [] }

/-- C2 counterexample: clustering item `a` (point geometry at the origin)
creates an incident with bbox `(0,0,0,0)`; clustering item `b` (coordinates
`(50,50)`, no geometry) links it to the same incident but never folds its
coordinates into the bbox, so the claimed invariant fails after this
two-step sequence of `assign_item_to_incident` calls. -/
theorem bbox_invariant_counterexample :
    ((assign_item_to_incident (fun _ => 0) (fun _ _ _ _ => 0) 100 "inc1"
        c2db "a").bind (fun out1 =>
      assign_item_to_incident (fun _ => 0) (fun _ _ _ _ => 0) 100 "inc2"
        out1.db "b")).map (fun out2 => bbox_invariant_check out2.db) =
      some false := by
  decide

/-- C2 (amended): when the matched item has a geometry-derived bbox and the
incident already has one, the update sets the incident bbox to the
element-wise extent of the two: it always contains the item's extent, and —
when no location promotion replaced the incident bbox with the item's —
also the previous incident bbox; the centroid is recomputed from the merged
bbox.  (Coordinates of items without geometry are never folded in, so
containment of every per-item coordinate does not hold in general.) -/
theorem update_bbox_merge (tokenHash : String → Nat) (now : Int)
    (incident : IncidentRow) (item : ItemRow) (ib cb : BBox)
    (hib : item.geom.bind bbox_from_geojson = some ib)
    (hcb : incident.bbox = some cb) :
    ∃ m, (update_incident_fields tokenHash now incident item).bbox = some m ∧
      m.min_lon ≤ ib.min_lon ∧ m.min_lat ≤ ib.min_lat ∧
      ib.max_lon ≤ m.max_lon ∧ ib.max_lat ≤ m.max_lat ∧
      (update_incident_fields tokenHash now incident item).lat =
        some (centroid_from_bbox m).1 ∧
      (update_incident_fields tokenHash now incident item).lon =
        some (centroid_from_bbox m).2 ∧
      (location_rank item.location_confidence ≤
          location_rank incident.location_confidence →
        m = { min_lon := min cb.min_lon ib.min_lon,
              min_lat := min cb.min_lat ib.min_lat,
              max_lon := max cb.max_lon ib.max_lon,
              max_lat := max cb.max_lat ib.max_lat } ∧
        m.min_lon ≤ cb.min_lon ∧ m.min_lat ≤ cb.min_lat ∧
        cb.max_lon ≤ m.max_lon ∧ cb.max_lat ≤ m.max_lat) := by
  by_cases hr : location_rank item.location_confidence >
      location_rank incident.location_confidence
  · refine ⟨⟨min ib.min_lon ib.min_lon, min ib.min_lat ib.min_lat,
        max ib.max_lon ib.max_lon, max ib.max_lat ib.max_lat⟩,
      ?_, ?_, ?_, ?_, ?_, ?_, ?_, ?_⟩
    · rw [update_incident_fields, if_pos hr, hib]
    · simp
    · simp
    · simp
    · simp
    · rw [update_incident_fields, if_pos hr, hib]
    · rw [update_incident_fields, if_pos hr, hib]
    · intro hle
      omega
  · have hnr : ¬(location_rank item.location_confidence >
        location_rank incident.location_confidence) := hr
    refine ⟨⟨min cb.min_lon ib.min_lon, min cb.min_lat ib.min_lat,
        max cb.max_lon ib.max_lon, max cb.max_lat ib.max_lat⟩,
      ?_, ?_, ?_, ?_, ?_, ?_, ?_, ?_⟩
    · rw [update_incident_fields, if_neg hnr, hib, hcb]
    · exact min_le_right _ _
    · exact min_le_right _ _
    · exact le_max_right _ _
    · exact le_max_right _ _
    · rw [update_incident_fields, if_neg hnr, hib, hcb]
    · rw [update_incident_fields, if_neg hnr, hib, hcb]
    · intro _
      exact ⟨rfl, min_le_left _ _, min_le_left _ _, le_max_left _ _,
        le_max_left _ _⟩

/-- Incident used by the amended-C2 witness: bbox `(0,0,1,1)`. -/
def c2winc : IncidentRow := { w7inc with bbox := some ⟨0, 0, 1, 1⟩ }

/-- Item used by the amended-C2 witness: point geometry at `(3,4)`,
country-level confidence (no promotion over `B_place_match`). -/
def c2witem : ItemRow :=
  { w7item with
      geom := some (Geom.point 3 4),
      location_confidence := "C_country" }

/-- Witness for the amended C2: the merged bbox contains both the item's
extent and the previous incident bbox. -/
theorem update_bbox_merge_witness :
    ∃ m, (update_incident_fields (fun _ => 0) 9 c2winc c2witem).bbox =
        some m ∧
      m.min_lon ≤ 3 ∧ (3 : ℚ) ≤ m.max_lon ∧ m.min_lon ≤ 0 ∧
      (1 : ℚ) ≤ m.max_lon := by
  obtain ⟨m, hm, h1, h2, h3, h4, hlat, hlon, himp⟩ :=
    update_bbox_merge (fun _ => 0) 9 c2winc c2witem ⟨3, 4, 3, 4⟩ ⟨0, 0, 1, 1⟩
      rfl rfl
  obtain ⟨hmeq, hc1, hc2, hc3, hc4⟩ := himp (by decide)
  exact ⟨m, hm, h1, h3, hc1, hc3⟩

/-! ## URL canonicalization (clusterer.py `canonicalize_url`)

The Python implementation delegates to `urllib.parse`
(`urlsplit`, `parse_qsl`, `urlencode` with `quote_plus`, `urlunsplit`).
Those library functions are modelled here at the byte level: a URL is a
`List Nat` of bytes (< 256), which for ASCII text coincides with the
Python string view.  `unquote` is modelled as producing decoded bytes
directly (Python's intermediate UTF-8 decode with `errors="replace"` and
re-encode composes to the same canonical forms), and `casefold` on the
host as ASCII lowercasing, with which it agrees on ASCII text.
Validation-only checks that can only raise (`ValueError` for unbalanced
IPv6 brackets or non-NFKC netlocs) are omitted: on inputs where CPython
raises, `canonicalize_url` raises too and the claims are vacuous. -/

/-- ASCII uppercase test and lowering (`str.lower`/`str.casefold` on the
ASCII bytes the scheme and host are made of). -/
def lowerByte (b : Nat) : Nat :=
  if 65 ≤ b ∧ b ≤ 90 then b + 32 else b

def isAsciiAlphaB (b : Nat) : Bool :=
  (65 ≤ b && b ≤ 90) || (97 ≤ b && b ≤ 122)

def isAsciiDigitB (b : Nat) : Bool :=
  48 ≤ b && b ≤ 57

/-- `scheme_chars` from `urllib.parse`: letters, digits, `+`, `-`, `.`. -/
def isSchemeChar (b : Nat) : Bool :=
  isAsciiAlphaB b || isAsciiDigitB b || b == 43 || b == 45 || b == 46

/-- `s.split(sep, 1)`: the part before the first separator, and the rest
when the separator occurs. -/
def splitOnFirst (sep : Nat) : List Nat → List Nat × Option (List Nat)
  | [] => ([], none)
  | b :: bs =>
    if b = sep then ([], some bs)
    else
      let r := splitOnFirst sep bs
      (b :: r.1, r.2)

/-- The five components returned by `urlsplit`. -/
structure SplitResult where
  scheme : List Nat
  netloc : List Nat
  path : List Nat
  query : List Nat
  fragment : List Nat
deriving Repr, DecidableEq

/-- The scheme detection of `urlsplit`: the text before the first `:` must
be non-empty, start with an ASCII letter and consist of scheme characters;
the scheme is lowercased. -/
def splitScheme (u : List Nat) : List Nat × List Nat :=
  match splitOnFirst 58 u with
  | (pre, some rest) =>
    if !pre.isEmpty && isAsciiAlphaB (pre.headD 0) && pre.all isSchemeChar
    then (pre.map lowerByte, rest)
    else ([], u)
  | (_, none) => ([], u)

/-- A byte that ends the netloc: `/`, `?` or `#`. -/
def isNetlocDelim (b : Nat) : Bool :=
  b == 47 || b == 63 || b == 35

/-- `_splitnetloc`: when the rest starts with `//`, the netloc runs to the
first `/`, `?` or `#`. -/
def splitNetloc (u : List Nat) : List Nat × List Nat :=
  if u.take 2 == [47, 47] then
    let after := u.drop 2
    (after.takeWhile (fun b => !isNetlocDelim b),
      after.dropWhile (fun b => !isNetlocDelim b))
  else ([], u)

/-- `urlsplit` from `urllib.parse` (modern CPython): strip leading
C0-control-or-space bytes, remove tab/CR/LF, detect the scheme, the
`//`-netloc, then split off fragment and query. -/
def urlsplit (u : List Nat) : SplitResult :=
  let u1 := (u.dropWhile (fun b => decide (b ≤ 32))).filter
    (fun b => !(b == 9 || b == 10 || b == 13))
  let sr := splitScheme u1
  let nr := splitNetloc sr.2
  let fr := splitOnFirst 35 nr.2
  let qr := splitOnFirst 63 fr.1
  { scheme := sr.1, netloc := nr.1, path := qr.1,
    query := qr.2.getD [], fragment := fr.2.getD [] }

/-- `uses_netloc` from `urllib.parse` (the schemes for which `urlunsplit`
inserts `//`). -/
def uses_netloc : List (List Nat) :=
  ["", "ftp", "http", "gopher", "nntp", "telnet", "imap", "wais", "file",
   "mms", "https", "shttp", "snews", "prospero", "rtsp", "rtsps", "rtspu",
   "rsync", "svn", "svn+ssh", "sftp", "nfs", "git", "git+ssh", "ws",
   "wss"].map (fun s => s.data.map Char.toNat)

/-- `urlunsplit` from `urllib.parse` (CPython ≥ 3.11): `//` is inserted
when the netloc is non-empty, or when the scheme is non-empty, uses a
netloc, and the path does not already start with `//`. -/
def urlunsplit (s : SplitResult) : List Nat :=
  let url0 := s.path
  let url1 :=
    if !s.netloc.isEmpty ||
        (!s.scheme.isEmpty && uses_netloc.contains s.scheme &&
          url0.take 2 != [47, 47]) then
      47 :: 47 :: (s.netloc ++
        (if !url0.isEmpty && url0.headD 0 != 47 then 47 :: url0 else url0))
    else url0
  let url2 := if !s.scheme.isEmpty then s.scheme ++ 58 :: url1 else url1
  let url3 := if !s.query.isEmpty then url2 ++ 63 :: s.query else url2
  if !s.fragment.isEmpty then url3 ++ 35 :: s.fragment else url3

/-- The value of an ASCII hex digit, `None` otherwise. -/
def unhexDigit (b : Nat) : Option Nat :=
  if 48 ≤ b ∧ b ≤ 57 then some (b - 48)
  else if 65 ≤ b ∧ b ≤ 70 then some (b - 55)
  else if 97 ≤ b ∧ b ≤ 102 then some (b - 87)
  else none

/-- `unquote` at the byte level: a `%` followed by two hex digits decodes
to that byte, otherwise the `%` stays literal. -/
def unquoteBytes : List Nat → List Nat
  | [] => []
  | 37 :: h1 :: h2 :: rest =>
    match unhexDigit h1, unhexDigit h2 with
    | some a, some b => (16 * a + b) :: unquoteBytes rest
    | _, _ => 37 :: unquoteBytes (h1 :: h2 :: rest)
  | b :: rest => b :: unquoteBytes rest

/-- The `.replace('+', ' ')` step of `parse_qsl`. -/
def plusToSpace (l : List Nat) : List Nat :=
  l.map (fun b => if b == 43 then 32 else b)

/-- `qs.split('&')` (full split, keeping empty chunks). -/
def splitAllOn (sep : Nat) : List Nat → List (List Nat)
  | [] => [[]]
  | b :: bs =>
    if b = sep then [] :: splitAllOn sep bs
    else
      match splitAllOn sep bs with
      | [] => [[b]]
      | chunk :: chunks => (b :: chunk) :: chunks

/-- One `name_value` chunk of `parse_qsl` with `keep_blank_values=True`:
empty chunks are skipped, a chunk without `=` becomes `(name, "")`. -/
def parseChunk (chunk : List Nat) : Option (List Nat × List Nat) :=
  if chunk.isEmpty then none
  else
    match splitOnFirst 61 chunk with
    | (name, some value) =>
      some (unquoteBytes (plusToSpace name), unquoteBytes (plusToSpace value))
    | (name, none) => some (unquoteBytes (plusToSpace name), [])

/-- `parse_qsl(qs, keep_blank_values=True)` from `urllib.parse`. -/
def parse_qsl (q : List Nat) : List (List Nat × List Nat) :=
  if q.isEmpty then []
  else (splitAllOn 38 q).filterMap parseChunk

/-- The characters `quote` never encodes: letters, digits, `_.-~`. -/
def isAlwaysSafe (b : Nat) : Bool :=
  isAsciiAlphaB b || isAsciiDigitB b || b == 95 || b == 46 || b == 45 ||
    b == 126

/-- Uppercase hex digit of a nibble. -/
def hexUpper (n : Nat) : Nat :=
  if n < 10 then 48 + n else 55 + n

/-- `quote_plus` with `safe=''` on one byte: space becomes `+`, safe bytes
stay, everything else is percent-encoded. -/
def quotePlusByte (b : Nat) : List Nat :=
  if b == 32 then [43]
  else if isAlwaysSafe b then [b]
  else [37, hexUpper (b / 16), hexUpper (b % 16)]

def quotePlus (s : List Nat) : List Nat :=
  (s.map quotePlusByte).flatten

/-- `urlencode(pairs, doseq=True)` over string pairs: each pair is
`quote_plus(k) + "=" + quote_plus(v)`, joined with `&`. -/
def urlencodePairs (l : List (List Nat × List Nat)) : List Nat :=
  List.intercalate [38] (l.map (fun kv => quotePlus kv.1 ++ 61 :: quotePlus kv.2))

/-- The bytes of an ASCII string literal. -/
def asciiBytes (s : String) : List Nat :=
  s.data.map Char.toNat

/-- `_TRACKING_PARAM_NAMES` from clusterer.py. -/
def TRACKING_PARAM_NAMES : List (List Nat) :=
  [asciiBytes "fbclid", asciiBytes "gclid", asciiBytes "mc_cid",
   asciiBytes "mc_eid", asciiBytes "mkt_tok"]

/-- The drop test of `canonicalize_url`: the casefolded key starts with
`utm_` or is one of the tracking names. -/
def isTrackingKey (k : List Nat) : Bool :=
  let kl := k.map lowerByte
  kl.take 4 == asciiBytes "utm_" || TRACKING_PARAM_NAMES.contains kl

/-- `canonicalize_url` from clusterer.py: split, drop tracking query
parameters, lowercase the host, re-encode the query, drop the fragment. -/
def canonicalize_url (url : List Nat) : List Nat :=
  let parts := urlsplit url
  let kept := (parse_qsl parts.query).filter (fun kv => !isTrackingKey kv.1)
  urlunsplit
    { scheme := parts.scheme, netloc := parts.netloc.map lowerByte,
      path := parts.path, query := urlencodePairs kept, fragment := [] }

/-! ### Toolkit: `splitOnFirst` -/

theorem splitOnFirst_of_not_mem (sep : Nat) (l : List Nat) (h : sep ∉ l) :
    splitOnFirst sep l = (l, none) := by
  induction l with
  | nil => rfl
  | cons b bs ih =>
    have hb : b ≠ sep := fun hc => h (hc ▸ List.mem_cons_self b bs)
    have hbs : sep ∉ bs := fun hc => h (List.mem_cons_of_mem b hc)
    simp [splitOnFirst, hb, ih hbs]

theorem splitOnFirst_append_sep (sep : Nat) (a b : List Nat) (h : sep ∉ a) :
    splitOnFirst sep (a ++ sep :: b) = (a, some b) := by
  induction a with
  | nil => simp [splitOnFirst]
  | cons x xs ih =>
    have hx : x ≠ sep := fun hc => h (hc ▸ List.mem_cons_self x xs)
    have hxs : sep ∉ xs := fun hc => h (List.mem_cons_of_mem x hc)
    simp [splitOnFirst, hx, ih hxs]

theorem splitOnFirst_none_inv (sep : Nat) (l pre : List Nat)
    (h : splitOnFirst sep l = (pre, none)) : pre = l ∧ sep ∉ l := by
  induction l generalizing pre with
  | nil =>
    simp only [splitOnFirst, Prod.mk.injEq] at h
    exact ⟨h.1.symm, List.not_mem_nil sep⟩
  | cons b bs ih =>
    by_cases hb : b = sep
    · simp [splitOnFirst, hb] at h
    · simp only [splitOnFirst, if_neg hb, Prod.mk.injEq] at h
      obtain ⟨h1, h2⟩ := h
      obtain ⟨hpre, hmem⟩ := ih (splitOnFirst sep bs).1 (by rw [← h2])
      subst h1
      refine ⟨by rw [hpre], fun hc => ?_⟩
      rcases List.mem_cons.mp hc with hc | hc
      · exact hb hc.symm
      · exact hmem hc

theorem splitOnFirst_some_inv (sep : Nat) (l pre r : List Nat)
    (h : splitOnFirst sep l = (pre, some r)) :
    l = pre ++ sep :: r ∧ sep ∉ pre := by
  induction l generalizing pre with
  | nil => simp [splitOnFirst] at h
  | cons b bs ih =>
    by_cases hb : b = sep
    · simp only [splitOnFirst, if_pos hb, Prod.mk.injEq, Option.some.injEq] at h
      obtain ⟨h1, h2⟩ := h
      subst hb
      subst h2
      rw [← h1]
      simp
    · simp only [splitOnFirst, if_neg hb, Prod.mk.injEq, Option.some.injEq] at h
      obtain ⟨h1, h2⟩ := h
      obtain ⟨hdec, hmem⟩ := ih (splitOnFirst sep bs).1 (by rw [← h2])
      subst h1
      refine ⟨by rw [List.cons_append, ← hdec], fun hc => ?_⟩
      rcases List.mem_cons.mp hc with hc | hc
      · exact hb hc.symm
      · exact hmem hc

theorem splitOnFirst_append_of_some (sep : Nat) (l pre r t : List Nat)
    (h : splitOnFirst sep l = (pre, some r)) :
    splitOnFirst sep (l ++ t) = (pre, some (r ++ t)) := by
  obtain ⟨hdec, hmem⟩ := splitOnFirst_some_inv sep l pre r h
  subst hdec
  rw [List.append_assoc, List.cons_append]
  exact splitOnFirst_append_sep sep pre (r ++ t) hmem

/-! ### Byte classes of encoder output -/

/-- The bytes `quote_plus` can emit: `+`, always-safe bytes, `%` and
uppercase hex digits. -/
def quoteByteOK (b : Nat) : Bool :=
  b == 43 || isAlwaysSafe b || b == 37 || (48 ≤ b && b ≤ 57) ||
    (65 ≤ b && b ≤ 70)

/-- The bytes an encoded query can contain: printable ASCII other than
`#`, `/`, `:`, `?`. -/
def goodQueryByte (b : Nat) : Bool :=
  (33 ≤ b && b ≤ 126) && !(b == 35 || b == 47 || b == 58 || b == 63)

theorem quoteByteOK_goodQuery (b : Nat) (h : quoteByteOK b = true) :
    goodQueryByte b = true := by
  simp only [quoteByteOK, isAlwaysSafe, isAsciiAlphaB, isAsciiDigitB,
    Bool.or_eq_true, beq_iff_eq, Bool.and_eq_true, decide_eq_true_eq] at h
  simp only [goodQueryByte, Bool.and_eq_true, decide_eq_true_eq,
    Bool.not_eq_true', Bool.or_eq_false_iff, beq_eq_false_iff_ne, ne_eq]
  omega

theorem quoteByteOK_ne_sep (b : Nat) (h : quoteByteOK b = true) :
    b ≠ 61 ∧ b ≠ 38 := by
  simp only [quoteByteOK, isAlwaysSafe, isAsciiAlphaB, isAsciiDigitB,
    Bool.or_eq_true, beq_iff_eq, Bool.and_eq_true, decide_eq_true_eq] at h
  omega

theorem goodQueryByte_spec (b : Nat) (h : goodQueryByte b = true) :
    32 < b ∧ b ≠ 35 ∧ b ≠ 47 ∧ b ≠ 58 ∧ b ≠ 63 ∧ b ≠ 9 ∧ b ≠ 10 ∧ b ≠ 13 := by
  simp only [goodQueryByte, Bool.and_eq_true, decide_eq_true_eq,
    Bool.not_eq_true', Bool.or_eq_false_iff, beq_eq_false_iff_ne, ne_eq] at h
  omega

theorem quotePlusByte_ok (b x : Nat) (hb : b < 256) (hx : x ∈ quotePlusByte b) :
    quoteByteOK x = true := by
  unfold quotePlusByte at hx
  split at hx
  · simp only [List.mem_singleton] at hx
    subst hx
    rfl
  · split at hx
    · next hsafe =>
      simp only [List.mem_singleton] at hx
      subst hx
      simp [quoteByteOK, hsafe]
    · have h1 : b / 16 < 16 := by omega
      have h2 : b % 16 < 16 := by omega
      have hex : ∀ n, n < 16 → quoteByteOK (hexUpper n) = true := by decide
      simp only [List.mem_cons, List.not_mem_nil, or_false] at hx
      rcases hx with hx | hx | hx
      · simp [hx, quoteByteOK]
      · exact hx ▸ hex _ h1
      · exact hx ▸ hex _ h2

theorem quotePlus_ok (s : List Nat) (hs : ∀ b ∈ s, b < 256) (x : Nat)
    (hx : x ∈ quotePlus s) : quoteByteOK x = true := by
  simp only [quotePlus, List.mem_flatten, List.mem_map] at hx
  obtain ⟨l, ⟨b, hb, hl⟩, hxl⟩ := hx
  exact quotePlusByte_ok b x (hs b hb) (hl ▸ hxl)

theorem mem_intercalate_sep (sep : Nat) (L : List (List Nat)) (x : Nat)
    (hx : x ∈ List.intercalate [sep] L) : x = sep ∨ ∃ c ∈ L, x ∈ c := by
  induction L with
  | nil => simp [List.intercalate] at hx
  | cons a t ih =>
    cases t with
    | nil =>
      simp only [List.intercalate, List.intersperse, List.flatten,
        List.append_nil] at hx
      exact Or.inr ⟨a, List.mem_singleton_self a, hx⟩
    | cons b t2 =>
      rw [show List.intercalate [sep] (a :: b :: t2) =
        a ++ [sep] ++ List.intercalate [sep] (b :: t2) by
          simp [List.intercalate, List.intersperse],
        List.append_assoc] at hx
      rcases List.mem_append.mp hx with hx1 | hx2
      · exact Or.inr ⟨a, List.mem_cons_self a _, hx1⟩
      · rcases List.mem_append.mp hx2 with hx3 | hx4
        · exact Or.inl (List.mem_singleton.mp hx3)
        · rcases ih hx4 with h | ⟨c, hc, hxc⟩
          · exact Or.inl h
          · exact Or.inr ⟨c, List.mem_cons_of_mem a hc, hxc⟩

theorem urlencodePairs_ok (L : List (List Nat × List Nat))
    (hL : ∀ kv ∈ L, (∀ b ∈ kv.1, b < 256) ∧ (∀ b ∈ kv.2, b < 256))
    (x : Nat) (hx : x ∈ urlencodePairs L) : goodQueryByte x = true := by
  rcases mem_intercalate_sep 38 _ x hx with h | ⟨c, hc, hxc⟩
  · subst h
    rfl
  · simp only [List.mem_map] at hc
    obtain ⟨kv, hkv, hceq⟩ := hc
    subst hceq
    rcases List.mem_append.mp hxc with h | h
    · exact quoteByteOK_goodQuery x (quotePlus_ok kv.1 (hL kv hkv).1 x h)
    · rcases List.mem_cons.mp h with h | h
      · subst h
        rfl
      · exact quoteByteOK_goodQuery x (quotePlus_ok kv.2 (hL kv hkv).2 x h)

/-! ### Roundtrip: `parse_qsl` after `urlencode` -/

theorem unhexDigit_hexUpper : ∀ n, n < 16 → unhexDigit (hexUpper n) = some n := by
  decide

theorem unquoteBytes_cons_ne (b : Nat) (l : List Nat) (hb : b ≠ 37) :
    unquoteBytes (b :: l) = b :: unquoteBytes l := by
  rcases l with _ | ⟨h1, _ | ⟨h2, t⟩⟩ <;> simp [unquoteBytes, hb]

theorem unquote_quote_roundtrip (s : List Nat) (hs : ∀ b ∈ s, b < 256) :
    unquoteBytes (plusToSpace (quotePlus s)) = s := by
  induction s with
  | nil => rfl
  | cons b t ih =>
    have hb : b < 256 := hs b (List.mem_cons_self b t)
    have ht : ∀ x ∈ t, x < 256 := fun x hx => hs x (List.mem_cons_of_mem b hx)
    have hqp : quotePlus (b :: t) = quotePlusByte b ++ quotePlus t := by
      simp [quotePlus]
    rw [hqp, plusToSpace, List.map_append]
    unfold quotePlusByte
    split
    · next h32 =>
      have hb32 : b = 32 := by simpa using h32
      subst hb32
      rw [show List.map (fun b => if b == 43 then 32 else b) [43] = [32] from rfl]
      rw [List.singleton_append, unquoteBytes_cons_ne 32 _ (by omega)]
      rw [← plusToSpace, ih ht]
    · split
      · next hsafe =>
        have hrange : (48 ≤ b ∧ b ≤ 57) ∨ (65 ≤ b ∧ b ≤ 90) ∨ (97 ≤ b ∧ b ≤ 122) ∨
            b = 95 ∨ b = 46 ∨ b = 45 ∨ b = 126 := by
          simp only [isAlwaysSafe, isAsciiAlphaB, isAsciiDigitB,
            Bool.or_eq_true, beq_iff_eq, Bool.and_eq_true, decide_eq_true_eq] at hsafe
          omega
        have hb43 : b ≠ 43 := by omega
        have hb37 : b ≠ 37 := by omega
        rw [show List.map (fun x => if x == 43 then 32 else x) [b] = [b] by
          simp [hb43]]
        rw [List.singleton_append, unquoteBytes_cons_ne b _ hb37]
        rw [← plusToSpace, ih ht]
      · have h1 : b / 16 < 16 := by omega
        have h2 : b % 16 < 16 := by omega
        have hhexne : ∀ n, n < 16 → hexUpper n ≠ 43 := by decide
        rw [show List.map (fun x => if x == 43 then 32 else x)
              [37, hexUpper (b / 16), hexUpper (b % 16)] =
            [37, hexUpper (b / 16), hexUpper (b % 16)] by
          simp [hhexne _ h1, hhexne _ h2]]
        rw [← plusToSpace]
        rw [show ([37, hexUpper (b / 16), hexUpper (b % 16)] : List Nat) ++
              plusToSpace (quotePlus t) =
            37 :: hexUpper (b / 16) :: hexUpper (b % 16) ::
              plusToSpace (quotePlus t) by simp]
        rw [show unquoteBytes (37 :: hexUpper (b / 16) :: hexUpper (b % 16) ::
              plusToSpace (quotePlus t)) =
            (16 * (b / 16) + b % 16) :: unquoteBytes (plusToSpace (quotePlus t)) by
          simp [unquoteBytes, unhexDigit_hexUpper _ h1, unhexDigit_hexUpper _ h2]]
        rw [ih ht]
        congr 1
        omega

theorem quotePlus_not_mem_61 (s : List Nat) (hs : ∀ b ∈ s, b < 256) :
    61 ∉ quotePlus s := fun h =>
  absurd rfl ((quoteByteOK_ne_sep 61 (quotePlus_ok s hs 61 h)).1)

theorem quotePlus_not_mem_38 (s : List Nat) (hs : ∀ b ∈ s, b < 256) :
    38 ∉ quotePlus s := fun h =>
  absurd rfl ((quoteByteOK_ne_sep 38 (quotePlus_ok s hs 38 h)).2)

theorem parseChunk_roundtrip (k v : List Nat) (hk : ∀ b ∈ k, b < 256)
    (hv : ∀ b ∈ v, b < 256) :
    parseChunk (quotePlus k ++ 61 :: quotePlus v) = some (k, v) := by
  have hne : (quotePlus k ++ 61 :: quotePlus v).isEmpty = false := by
    cases h : quotePlus k ++ 61 :: quotePlus v with
    | nil => exact absurd h (by simp)
    | cons a t => rfl
  unfold parseChunk
  rw [hne]
  rw [splitOnFirst_append_sep 61 _ _ (quotePlus_not_mem_61 k hk)]
  simp only [Bool.false_eq_true, if_false]
  rw [unquote_quote_roundtrip k hk, unquote_quote_roundtrip v hv]

theorem splitAllOn_ne_nil (sep : Nat) (l : List Nat) : splitAllOn sep l ≠ [] := by
  induction l with
  | nil => simp [splitAllOn]
  | cons b bs ih =>
    simp only [splitAllOn]
    split
    · simp
    · split
      · simp
      · simp

theorem splitAllOn_cons_ne (sep b : Nat) (bs : List Nat) (hb : b ≠ sep) :
    splitAllOn sep (b :: bs) =
      (b :: (splitAllOn sep bs).headD []) :: (splitAllOn sep bs).tail := by
  simp only [splitAllOn, if_neg hb]
  cases h : splitAllOn sep bs with
  | nil => exact absurd h (splitAllOn_ne_nil sep bs)
  | cons c cs => simp

theorem splitAllOn_not_mem (sep : Nat) (l : List Nat) (h : sep ∉ l) :
    splitAllOn sep l = [l] := by
  induction l with
  | nil => rfl
  | cons b bs ih =>
    have hb : b ≠ sep := fun hc => h (hc ▸ List.mem_cons_self b bs)
    have hbs : sep ∉ bs := fun hc => h (List.mem_cons_of_mem b hc)
    rw [splitAllOn_cons_ne sep b bs hb, ih hbs]
    rfl

theorem splitAllOn_append (sep : Nat) (a b : List Nat) (h : sep ∉ a) :
    splitAllOn sep (a ++ sep :: b) = a :: splitAllOn sep b := by
  induction a with
  | nil => simp [splitAllOn]
  | cons x xs ih =>
    have hx : x ≠ sep := fun hc => h (hc ▸ List.mem_cons_self x xs)
    have hxs : sep ∉ xs := fun hc => h (List.mem_cons_of_mem x hc)
    rw [List.cons_append, splitAllOn_cons_ne sep x _ hx, ih hxs]
    rfl

theorem urlencodePairs_chunk_38 (kv : List Nat × List Nat)
    (hk : ∀ b ∈ kv.1, b < 256) (hv : ∀ b ∈ kv.2, b < 256) :
    (38 : Nat) ∉ quotePlus kv.1 ++ 61 :: quotePlus kv.2 := by
  intro hc
  rcases List.mem_append.mp hc with h | h
  · exact quotePlus_not_mem_38 kv.1 hk h
  · rcases List.mem_cons.mp h with h | h
    · omega
    · exact quotePlus_not_mem_38 kv.2 hv h

theorem parse_encode_core (L : List (List Nat × List Nat))
    (hL : ∀ kv ∈ L, (∀ b ∈ kv.1, b < 256) ∧ (∀ b ∈ kv.2, b < 256)) :
    (splitAllOn 38 (urlencodePairs L)).filterMap parseChunk = L := by
  induction L with
  | nil =>
    rw [show urlencodePairs [] = [] from rfl, show splitAllOn 38 [] = [[]] from rfl]
    rfl
  | cons kv t ih =>
    have hkv := hL kv (List.mem_cons_self kv t)
    have ht : ∀ x ∈ t, (∀ b ∈ x.1, b < 256) ∧ (∀ b ∈ x.2, b < 256) :=
      fun x hx => hL x (List.mem_cons_of_mem kv hx)
    cases t with
    | nil =>
      rw [show urlencodePairs [kv] = quotePlus kv.1 ++ 61 :: quotePlus kv.2 by
        simp [urlencodePairs, List.intercalate, List.intersperse]]
      rw [splitAllOn_not_mem 38 _ (urlencodePairs_chunk_38 kv hkv.1 hkv.2)]
      simp [List.filterMap_cons, parseChunk_roundtrip kv.1 kv.2 hkv.1 hkv.2]
    | cons kv2 t2 =>
      rw [show urlencodePairs (kv :: kv2 :: t2) =
          (quotePlus kv.1 ++ 61 :: quotePlus kv.2) ++ 38 ::
            urlencodePairs (kv2 :: t2) by
        simp [urlencodePairs, List.intercalate, List.intersperse]]
      rw [splitAllOn_append 38 _ _ (urlencodePairs_chunk_38 kv hkv.1 hkv.2)]
      rw [List.filterMap_cons, parseChunk_roundtrip kv.1 kv.2 hkv.1 hkv.2, ih ht]

theorem parse_qsl_urlencodePairs (L : List (List Nat × List Nat))
    (hL : ∀ kv ∈ L, (∀ b ∈ kv.1, b < 256) ∧ (∀ b ∈ kv.2, b < 256)) :
    parse_qsl (urlencodePairs L) = L := by
  unfold parse_qsl
  split
  · next hemp =>
    cases L with
    | nil => rfl
    | cons kv t =>
      exfalso
      have : (38 : Nat) ∉ ([] : List Nat) := by simp
      cases t with
      | nil =>
        rw [show urlencodePairs [kv] = quotePlus kv.1 ++ 61 :: quotePlus kv.2 by
          simp [urlencodePairs, List.intercalate, List.intersperse]] at hemp
        simp at hemp
      | cons kv2 t2 =>
        rw [show urlencodePairs (kv :: kv2 :: t2) =
            (quotePlus kv.1 ++ 61 :: quotePlus kv.2) ++ 38 ::
              urlencodePairs (kv2 :: t2) by
          simp [urlencodePairs, List.intercalate, List.intersperse]] at hemp
        simp at hemp
  · exact parse_encode_core L hL

/-! ### `splitScheme` and `splitNetloc` characterizations -/

/-- Nothing before the first `:` of `p` looks like a URL scheme. -/
def noSchemeColon (p : List Nat) : Prop :=
  ∀ α β, splitOnFirst 58 p = (α, some β) →
    (!α.isEmpty && isAsciiAlphaB (α.headD 0) && α.all isSchemeChar) = false

theorem splitScheme_not_alpha (u : List Nat)
    (h : isAsciiAlphaB (u.headD 0) = false) : splitScheme u = ([], u) := by
  cases u with
  | nil => rfl
  | cons b bs =>
    by_cases hb : b = 58
    · subst hb
      simp [splitScheme, splitOnFirst]
    · unfold splitScheme
      cases h2 : (splitOnFirst 58 (b :: bs)).2 with
      | none =>
        rw [show splitOnFirst 58 (b :: bs) =
          ((splitOnFirst 58 (b :: bs)).1, none) from Prod.ext rfl h2]
      | some r =>
        rw [show splitOnFirst 58 (b :: bs) =
          ((splitOnFirst 58 (b :: bs)).1, some r) from Prod.ext rfl h2]
        have hpre : (splitOnFirst 58 (b :: bs)).1 = b :: (splitOnFirst 58 bs).1 := by
          simp [splitOnFirst, hb]
        rw [hpre]
        simp only [List.headD_cons] at h ⊢
        simp [h]

theorem splitScheme_not_mem (u : List Nat) (h : 58 ∉ u) :
    splitScheme u = ([], u) := by
  unfold splitScheme
  rw [splitOnFirst_of_not_mem 58 u h]

theorem splitScheme_guard_false (u α β : List Nat)
    (hsp : splitOnFirst 58 u = (α, some β))
    (hg : (!α.isEmpty && isAsciiAlphaB (α.headD 0) && α.all isSchemeChar) = false) :
    splitScheme u = ([], u) := by
  unfold splitScheme
  rw [hsp]
  dsimp only
  rw [hg]
  simp

theorem splitScheme_guard_true (α r : List Nat) (hne : α ≠ [])
    (halpha : isAsciiAlphaB (α.headD 0) = true)
    (hall : α.all isSchemeChar = true) (hmem : 58 ∉ α) :
    splitScheme (α ++ 58 :: r) = (α.map lowerByte, r) := by
  have hemp : α.isEmpty = false := by
    cases α with
    | nil => exact absurd rfl hne
    | cons a t => rfl
  have hg : (!α.isEmpty && isAsciiAlphaB (α.headD 0) && α.all isSchemeChar) = true := by
    rw [hemp, halpha, hall]
    rfl
  unfold splitScheme
  rw [splitOnFirst_append_sep 58 α r hmem]
  dsimp only
  rw [hg]
  simp

theorem splitScheme_inv (u s r : List Nat) (h : splitScheme u = (s, r)) :
    (s = [] ∧ r = u) ∨
      (∃ pre, s = pre.map lowerByte ∧ pre ≠ [] ∧
        isAsciiAlphaB (pre.headD 0) = true ∧ pre.all isSchemeChar = true ∧
        u = pre ++ 58 :: r) := by
  unfold splitScheme at h
  cases hsp : splitOnFirst 58 u with
  | mk pre o =>
    rw [hsp] at h
    cases o with
    | none =>
      dsimp only at h
      simp only [Prod.mk.injEq] at h
      exact Or.inl ⟨h.1.symm, h.2.symm⟩
    | some rest =>
      dsimp only at h
      by_cases hg : (!pre.isEmpty && isAsciiAlphaB (pre.headD 0) &&
          pre.all isSchemeChar) = true
      · rw [if_pos hg] at h
        simp only [Prod.mk.injEq] at h
        simp only [Bool.and_eq_true, Bool.not_eq_true', List.isEmpty_eq_false] at hg
        have hdec := (splitOnFirst_some_inv 58 u pre rest hsp).1
        exact Or.inr ⟨pre, h.1.symm, hg.1.1, hg.1.2, hg.2, h.2 ▸ hdec⟩
      · rw [if_neg hg] at h
        simp only [Prod.mk.injEq] at h
        exact Or.inl ⟨h.1.symm, h.2.symm⟩

/-- Scheme-[]-output of `splitScheme` also pins the guard failure. -/
theorem splitScheme_nil_inv (u r : List Nat) (h : splitScheme u = ([], r)) :
    r = u ∧ noSchemeColon u := by
  unfold splitScheme at h
  cases hsp : splitOnFirst 58 u with
  | mk pre o =>
    rw [hsp] at h
    cases o with
    | none =>
      dsimp only at h
      simp only [Prod.mk.injEq] at h
      refine ⟨h.2.symm, fun α β hαβ => ?_⟩
      rw [hsp] at hαβ
      simp at hαβ
    | some rest =>
      dsimp only at h
      by_cases hg : (!pre.isEmpty && isAsciiAlphaB (pre.headD 0) &&
          pre.all isSchemeChar) = true
      · rw [if_pos hg] at h
        simp only [Prod.mk.injEq] at h
        simp only [Bool.and_eq_true, Bool.not_eq_true', List.isEmpty_eq_false] at hg
        exact absurd h.1.symm (by simp [hg.1.1])
      · rw [if_neg hg] at h
        simp only [Prod.mk.injEq] at h
        refine ⟨h.2.symm, fun α β hαβ => ?_⟩
        rw [hsp] at hαβ
        simp only [Prod.mk.injEq, Option.some.injEq] at hαβ
        rw [← hαβ.1]
        exact Bool.not_eq_true _ ▸ hg

theorem take2_eq_iff (l : List Nat) :
    l.take 2 = [47, 47] ↔ ∃ t, l = 47 :: 47 :: t := by
  constructor
  · intro h
    match l, h with
    | 47 :: 47 :: t, _ => exact ⟨t, rfl⟩
  · rintro ⟨t, rfl⟩
    rfl

theorem dropWhile_head_fail (pred : Nat → Bool) (l : List Nat) :
    l.dropWhile pred = [] ∨ pred ((l.dropWhile pred).headD 0) = false := by
  induction l with
  | nil => exact Or.inl rfl
  | cons b bs ih =>
    by_cases hb : pred b = true
    · rw [List.dropWhile_cons_of_pos hb]
      exact ih
    · rw [List.dropWhile_cons_of_neg hb]
      exact Or.inr (by simpa using hb)

theorem takeWhile_nil_of_head_fail (pred : Nat → Bool) (r : List Nat)
    (h : r = [] ∨ pred (r.headD 0) = false) :
    r.takeWhile pred = [] ∧ r.dropWhile pred = r := by
  rcases h with h | h
  · subst h
    exact ⟨rfl, rfl⟩
  · cases r with
    | nil => exact ⟨rfl, rfl⟩
    | cons b bs =>
      simp only [List.headD_cons] at h
      rw [List.takeWhile_cons_of_neg (by simp [h]), List.dropWhile_cons_of_neg (by simp [h])]
      exact ⟨rfl, rfl⟩

theorem splitNetloc_inv (x nl rest : List Nat) (h : splitNetloc x = (nl, rest)) :
    (nl = [] ∧ rest = x ∧ x.take 2 ≠ [47, 47]) ∨
      (∃ after, x = 47 :: 47 :: after ∧
        nl = after.takeWhile (fun b => !isNetlocDelim b) ∧
        rest = after.dropWhile (fun b => !isNetlocDelim b)) := by
  unfold splitNetloc at h
  by_cases ht : x.take 2 == [47, 47]
  · rw [if_pos ht] at h
    simp only [Prod.mk.injEq] at h
    obtain ⟨t, hx⟩ := (take2_eq_iff x).mp (by simpa using ht)
    subst hx
    exact Or.inr ⟨t, rfl, by simpa using h.1.symm, by simpa using h.2.symm⟩
  · rw [if_neg ht] at h
    simp only [Prod.mk.injEq] at h
    exact Or.inl ⟨h.1.symm, h.2.symm, by simpa using ht⟩

theorem splitNetloc_skip (x : List Nat) (h : x.take 2 ≠ [47, 47]) :
    splitNetloc x = ([], x) := by
  unfold splitNetloc
  rw [if_neg (by simpa using h)]

theorem splitNetloc_hit (n r : List Nat)
    (hn : ∀ b ∈ n, isNetlocDelim b = false)
    (hr : r = [] ∨ isNetlocDelim (r.headD 0) = true) :
    splitNetloc (47 :: 47 :: (n ++ r)) = (n, r) := by
  unfold splitNetloc
  rw [if_pos (by rfl)]
  have hn' : ∀ b ∈ n, (fun b => !isNetlocDelim b) b = true := by
    intro b hb
    simp [hn b hb]
  have hrfail : r = [] ∨ (fun b => !isNetlocDelim b) (r.headD 0) = false := by
    rcases hr with h | h
    · exact Or.inl h
    · refine Or.inr ?_
      show (!isNetlocDelim (r.headD 0)) = false
      rw [h]
      rfl
  obtain ⟨htw, hdw⟩ := takeWhile_nil_of_head_fail (fun b => !isNetlocDelim b) r hrfail
  show (List.takeWhile _ ((47 :: 47 :: (n ++ r)).drop 2),
    List.dropWhile _ ((47 :: 47 :: (n ++ r)).drop 2)) = (n, r)
  rw [show (47 :: 47 :: (n ++ r)).drop 2 = n ++ r from rfl]
  rw [List.takeWhile_append_of_pos hn', List.dropWhile_append_of_pos hn',
    htw, hdw, List.append_nil]

/-! ### Byte bounds through decode -/

theorem unhexDigit_lt16 (h a : Nat) (hh : unhexDigit h = some a) : a < 16 := by
  unfold unhexDigit at hh
  split at hh
  · simp only [Option.some.injEq] at hh
    omega
  · split at hh
    · simp only [Option.some.injEq] at hh
      omega
    · split at hh
      · simp only [Option.some.injEq] at hh
        omega
      · cases hh

theorem unquoteBytes_lt256 (l : List Nat) (hl : ∀ b ∈ l, b < 256) :
    ∀ b ∈ unquoteBytes l, b < 256 := by
  induction l using unquoteBytes.induct with
  | case1 => simp [unquoteBytes]
  | case2 h1 h2 rest a b hA hB ih =>
    intro x hx
    rw [show unquoteBytes (37 :: h1 :: h2 :: rest) =
        (16 * a + b) :: unquoteBytes rest by simp [unquoteBytes, hA, hB]] at hx
    rcases List.mem_cons.mp hx with hx | hx
    · have ha16 : a < 16 := by
        first
        | exact unhexDigit_lt16 _ _ hA
        | exact unhexDigit_lt16 _ _ hB
      have hb16 : b < 16 := by
        first
        | exact unhexDigit_lt16 _ _ hB
        | exact unhexDigit_lt16 _ _ hA
      omega
    · refine ih (fun y hy => hl y ?_) x hx
      exact List.mem_cons_of_mem 37
        (List.mem_cons_of_mem h1 (List.mem_cons_of_mem h2 hy))
  | case3 x1 x2 x3 x4 ih =>
    intro x hx
    have heq : unquoteBytes (37 :: x1 :: x2 :: x3) =
        37 :: unquoteBytes (x1 :: x2 :: x3) := by
      cases hA : unhexDigit x1 with
      | none => simp [unquoteBytes, hA]
      | some a =>
        cases hB : unhexDigit x2 with
        | none => simp [unquoteBytes, hA, hB]
        | some b => exact (x4 a b hA hB).elim
    rw [heq] at hx
    rcases List.mem_cons.mp hx with hx | hx
    · omega
    · refine ih (fun y hy => hl y (List.mem_cons_of_mem 37 hy)) x hx
  | case4 x1 x2 hne ih =>
    intro x hx
    by_cases h37 : x1 = 37
    · subst h37
      rcases x2 with _ | ⟨y, _ | ⟨z, zs⟩⟩
      · rw [show unquoteBytes [37] = [37] by simp [unquoteBytes]] at hx
        rcases List.mem_cons.mp hx with hx | hx
        · omega
        · simp at hx
      · rw [show unquoteBytes [37, y] = [37, y] by simp [unquoteBytes]] at hx
        rcases List.mem_cons.mp hx with hx | hx
        · omega
        · rcases List.mem_cons.mp hx with hx | hx
          · exact hx ▸ hl y (List.mem_cons_of_mem 37 (List.mem_cons_self y []))
          · simp at hx
      · exact (hne y z zs rfl rfl).elim
    · rw [unquoteBytes_cons_ne x1 x2 h37] at hx
      rcases List.mem_cons.mp hx with hx | hx
      · exact hx ▸ hl x1 (List.mem_cons_self x1 x2)
      · refine ih (fun y hy => hl y (List.mem_cons_of_mem x1 hy)) x hx

theorem headD_mem (l : List Nat) (h : l ≠ []) : l.headD 0 ∈ l := by
  cases l with
  | nil => exact absurd rfl h
  | cons b bs => exact List.mem_cons_self b bs

theorem headD_append (a r : List Nat) (h : a ≠ []) :
    (a ++ r).headD 0 = a.headD 0 := by
  cases a with
  | nil => exact absurd rfl h
  | cons b bs => rfl

theorem takeWhile_nil_head (pred : Nat → Bool) (l : List Nat)
    (h : l.takeWhile pred = []) : l = [] ∨ pred (l.headD 0) = false := by
  cases l with
  | nil => exact Or.inl rfl
  | cons b bs =>
    by_cases hb : pred b = true
    · rw [List.takeWhile_cons_of_pos hb] at h
      cases h
    · exact Or.inr (by simpa using hb)

theorem dropWhile_of_takeWhile_nil (pred : Nat → Bool) (l : List Nat)
    (h : l.takeWhile pred = []) : l.dropWhile pred = l := by
  cases l with
  | nil => rfl
  | cons b bs =>
    by_cases hb : pred b = true
    · rw [List.takeWhile_cons_of_pos hb] at h
      cases h
    · exact List.dropWhile_cons_of_neg hb

theorem mem_splitAllOn (sep : Nat) (l c : List Nat) (hc : c ∈ splitAllOn sep l)
    (x : Nat) (hx : x ∈ c) : x ∈ l := by
  induction l generalizing c with
  | nil =>
    simp only [splitAllOn, List.mem_singleton] at hc
    subst hc
    cases hx
  | cons b bs ih =>
    by_cases hb : b = sep
    · subst hb
      simp only [splitAllOn, if_pos rfl] at hc
      rcases List.mem_cons.mp hc with hc | hc
      · subst hc
        cases hx
      · exact List.mem_cons_of_mem b (ih c hc hx)
    · rw [splitAllOn_cons_ne sep b bs hb] at hc
      rcases List.mem_cons.mp hc with hc | hc
      · subst hc
        rcases List.mem_cons.mp hx with hx | hx
        · exact hx ▸ List.mem_cons_self b bs
        · cases hsplit : splitAllOn sep bs with
          | nil => exact absurd hsplit (splitAllOn_ne_nil sep bs)
          | cons c0 cs =>
            rw [hsplit] at hx
            refine List.mem_cons_of_mem b (ih c0 ?_ hx)
            rw [hsplit]
            exact List.mem_cons_self c0 cs
      · cases hsplit : splitAllOn sep bs with
        | nil => exact absurd hsplit (splitAllOn_ne_nil sep bs)
        | cons c0 cs =>
          rw [hsplit] at hc
          refine List.mem_cons_of_mem b (ih c ?_ hx)
          rw [hsplit]
          exact List.mem_cons_of_mem c0 hc

theorem parse_qsl_lt256 (q : List Nat) (hq : ∀ b ∈ q, b < 256) :
    ∀ kv ∈ parse_qsl q, (∀ b ∈ kv.1, b < 256) ∧ (∀ b ∈ kv.2, b < 256) := by
  intro kv hkv
  unfold parse_qsl at hkv
  split at hkv
  · cases hkv
  · obtain ⟨chunk, hchunk, hparse⟩ := List.mem_filterMap.mp hkv
    have hchunk256 : ∀ b ∈ chunk, b < 256 :=
      fun b hb => hq b (mem_splitAllOn 38 q chunk hchunk b hb)
    unfold parseChunk at hparse
    split at hparse
    · cases hparse
    · have hpts : ∀ (x : List Nat), (∀ b ∈ x, b < 256) →
          ∀ b ∈ unquoteBytes (plusToSpace x), b < 256 := by
        intro x hx
        refine unquoteBytes_lt256 _ (fun b hb => ?_)
        simp only [plusToSpace, List.mem_map] at hb
        obtain ⟨y, hy, hyeq⟩ := hb
        by_cases hy43 : y = 43
        · subst hyeq
          simp [hy43]
        · have : b = y := by
            rw [← hyeq]
            simp [hy43]
          exact this ▸ hx y hy
      cases hsp : splitOnFirst 61 chunk with
      | mk name o =>
        rw [hsp] at hparse
        cases o with
        | some value =>
          dsimp only at hparse
          obtain ⟨hdec, -⟩ := splitOnFirst_some_inv 61 chunk name value hsp
          have hname : ∀ b ∈ name, b < 256 :=
            fun b hb => hchunk256 b (hdec ▸ List.mem_append_left _ hb)
          have hvalue : ∀ b ∈ value, b < 256 := fun b hb =>
            hchunk256 b (hdec ▸ List.mem_append_right _ (List.mem_cons_of_mem 61 hb))
          rw [← Option.some.injEq] at hparse
          simp only [Option.some.injEq] at hparse
          rw [← hparse]
          exact ⟨hpts name hname, hpts value hvalue⟩
        | none =>
          dsimp only at hparse
          obtain ⟨hdec, -⟩ := splitOnFirst_none_inv 61 chunk name hsp
          have hname : ∀ b ∈ name, b < 256 := fun b hb => hchunk256 b (hdec ▸ hb)
          simp only [Option.some.injEq] at hparse
          rw [← hparse]
          exact ⟨hpts name hname, by simp⟩

/-! ### `lowerByte` facts -/

theorem lowerByte_cases (b : Nat) : lowerByte b = b + 32 ∧ 65 ≤ b ∧ b ≤ 90 ∨
    lowerByte b = b ∧ ¬(65 ≤ b ∧ b ≤ 90) := by
  unfold lowerByte
  by_cases h : 65 ≤ b ∧ b ≤ 90
  · exact Or.inl ⟨if_pos h, h⟩
  · exact Or.inr ⟨if_neg h, h⟩

theorem lowerByte_idem (b : Nat) : lowerByte (lowerByte b) = lowerByte b := by
  rcases lowerByte_cases b with ⟨h1, h2⟩ | ⟨h1, h2⟩ <;>
    rcases lowerByte_cases (lowerByte b) with ⟨h3, h4⟩ | ⟨h3, h4⟩ <;> omega

theorem lowerByte_alpha (b : Nat) (h : isAsciiAlphaB b = true) :
    isAsciiAlphaB (lowerByte b) = true := by
  simp only [isAsciiAlphaB, Bool.or_eq_true, Bool.and_eq_true, decide_eq_true_eq] at h ⊢
  rcases lowerByte_cases b with ⟨h1, h2⟩ | ⟨h1, h2⟩ <;> omega

theorem lowerByte_schemeChar (b : Nat) (h : isSchemeChar b = true) :
    isSchemeChar (lowerByte b) = true := by
  simp only [isSchemeChar, isAsciiAlphaB, isAsciiDigitB, Bool.or_eq_true,
    Bool.and_eq_true, decide_eq_true_eq, beq_iff_eq] at h ⊢
  rcases lowerByte_cases b with ⟨h1, h2⟩ | ⟨h1, h2⟩ <;> omega

theorem lowerByte_not_delim (b : Nat) (h : isNetlocDelim b = false) :
    isNetlocDelim (lowerByte b) = false := by
  simp only [isNetlocDelim, Bool.or_eq_false_iff, beq_eq_false_iff_ne, ne_eq] at h ⊢
  rcases lowerByte_cases b with ⟨h1, h2⟩ | ⟨h1, h2⟩ <;> omega

theorem lowerByte_not_ctl (b : Nat) (h : b ≠ 9 ∧ b ≠ 10 ∧ b ≠ 13) :
    lowerByte b ≠ 9 ∧ lowerByte b ≠ 10 ∧ lowerByte b ≠ 13 := by
  rcases lowerByte_cases b with ⟨h1, h2⟩ | ⟨h1, h2⟩ <;> omega

theorem schemeChar_spec (b : Nat) (h : isSchemeChar b = true) :
    b ≠ 58 ∧ b ≠ 9 ∧ b ≠ 10 ∧ b ≠ 13 ∧ 32 < b := by
  simp only [isSchemeChar, isAsciiAlphaB, isAsciiDigitB, Bool.or_eq_true,
    Bool.and_eq_true, decide_eq_true_eq, beq_iff_eq] at h
  omega

theorem alpha_gt32 (b : Nat) (h : isAsciiAlphaB b = true) : 32 < b := by
  simp only [isAsciiAlphaB, Bool.or_eq_true, Bool.and_eq_true,
    decide_eq_true_eq] at h
  omega

theorem headD_map_lowerByte (l : List Nat) (h : l ≠ []) :
    (l.map lowerByte).headD 0 = lowerByte (l.headD 0) := by
  cases l with
  | nil => exact absurd rfl h
  | cons b bs => rfl

/-! ### The shape of the components `canonicalize_url` reassembles -/

/-- The lstrip/control-filter preprocessing of `urlsplit`. -/
def stripU (u : List Nat) : List Nat :=
  (u.dropWhile (fun b => decide (b ≤ 32))).filter
    (fun b => !(b == 9 || b == 10 || b == 13))

theorem urlsplit_components (u : List Nat) (s r n rest2 f1 p : List Nat)
    (fo qo : Option (List Nat))
    (hsp : splitScheme (stripU u) = (s, r))
    (hnl : splitNetloc r = (n, rest2))
    (hfr : splitOnFirst 35 rest2 = (f1, fo))
    (hqr : splitOnFirst 63 f1 = (p, qo)) :
    urlsplit u = ⟨s, n, p, qo.getD [], fo.getD []⟩ := by
  have h0 : urlsplit u = ⟨(splitScheme (stripU u)).1,
      (splitNetloc (splitScheme (stripU u)).2).1,
      (splitOnFirst 63
        (splitOnFirst 35 (splitNetloc (splitScheme (stripU u)).2).2).1).1,
      (splitOnFirst 63
        (splitOnFirst 35 (splitNetloc (splitScheme (stripU u)).2).2).1).2.getD [],
      (splitOnFirst 35 (splitNetloc (splitScheme (stripU u)).2).2).2.getD []⟩ := rfl
  rw [h0, hsp]
  dsimp only
  rw [hnl]
  dsimp only
  rw [hfr]
  dsimp only
  rw [hqr]

theorem stripU_mem (u : List Nat) (b : Nat) (hb : b ∈ stripU u) :
    b ∈ u ∧ b ≠ 9 ∧ b ≠ 10 ∧ b ≠ 13 := by
  obtain ⟨h1, h2⟩ := List.mem_filter.mp hb
  refine ⟨(List.dropWhile_sublist _).mem h1, ?_⟩
  simp only [Bool.not_eq_eq_eq_not, Bool.not_true, Bool.or_eq_false_iff,
    beq_eq_false_iff_ne, ne_eq] at h2
  exact ⟨h2.1.1, h2.1.2, h2.2⟩

theorem stripU_head (u : List Nat) : stripU u = [] ∨ 32 < (stripU u).headD 0 := by
  cases hdw : u.dropWhile (fun b => decide (b ≤ 32)) with
  | nil =>
    left
    rw [stripU, hdw]
    rfl
  | cons d t =>
    rcases dropWhile_head_fail (fun b => decide (b ≤ 32)) u with h | h
    · rw [hdw] at h
      cases h
    · rw [hdw] at h
      simp only [List.headD_cons, decide_eq_false_iff_not, not_le] at h
      right
      rw [stripU, hdw, List.filter_cons_of_pos (by
        simp only [Bool.not_eq_eq_eq_not, Bool.not_true, Bool.or_eq_false_iff,
          beq_eq_false_iff_ne, ne_eq]
        omega)]
      simpa using h

/-- What `canonicalize_url` guarantees of the components it hands to
`urlunsplit`: the shape facts needed to re-split its output. -/
structure CanonicalParts (s n p Q : List Nat) : Prop where
  scheme_ok : s = [] ∨ (s ≠ [] ∧ isAsciiAlphaB (s.headD 0) = true ∧
    s.all isSchemeChar = true ∧ s.map lowerByte = s)
  netloc_ok : ∀ b ∈ n, isNetlocDelim b = false ∧ lowerByte b = b ∧
    b ≠ 9 ∧ b ≠ 10 ∧ b ≠ 13
  path_35 : 35 ∉ p
  path_63 : 63 ∉ p
  path_ctl : ∀ b ∈ p, b ≠ 9 ∧ b ≠ 10 ∧ b ≠ 13
  path_scheme : s = [] → n = [] → noSchemeColon p
  path_head : s = [] → n = [] → p ≠ [] → 32 < p.headD 0
  netloc_path : n ≠ [] → p = [] ∨ p.headD 0 = 47
  query_ok : ∀ b ∈ Q, goodQueryByte b = true
  query_fixed : urlencodePairs ((parse_qsl Q).filter
    (fun kv => !isTrackingKey kv.1)) = Q

theorem urlsplit_parts (u : List Nat) (hu : ∀ b ∈ u, b < 256) :
    CanonicalParts (urlsplit u).scheme ((urlsplit u).netloc.map lowerByte)
      (urlsplit u).path
      (urlencodePairs ((parse_qsl (urlsplit u).query).filter
        (fun kv => !isTrackingKey kv.1))) ∧
    (∀ kv ∈ (parse_qsl (urlsplit u).query).filter (fun kv => !isTrackingKey kv.1),
      (∀ b ∈ kv.1, b < 256) ∧ (∀ b ∈ kv.2, b < 256)) := by
  cases hsp : splitScheme (stripU u) with
  | mk s r =>
  cases hnl : splitNetloc r with
  | mk n rest2 =>
  cases hfr : splitOnFirst 35 rest2 with
  | mk f1 fo =>
  cases hqr : splitOnFirst 63 f1 with
  | mk p qo =>
  have hu1lt : ∀ b ∈ stripU u, b < 256 := fun b hb => hu b (stripU_mem u b hb).1
  have hrmem : ∀ b ∈ r, b ∈ stripU u := by
    rcases splitScheme_inv _ _ _ hsp with ⟨-, hr⟩ | ⟨pre, -, -, -, -, hdec⟩
    · exact fun b hb => hr ▸ hb
    · exact fun b hb =>
        hdec ▸ List.mem_append_right pre (List.mem_cons_of_mem 58 hb)
  have hrest2mem : ∀ b ∈ rest2, b ∈ r := by
    rcases splitNetloc_inv _ _ _ hnl with ⟨-, hr2, -⟩ | ⟨after, hdec, -, hr2⟩
    · exact fun b hb => hr2 ▸ hb
    · intro b hb
      rw [hr2] at hb
      exact hdec ▸ List.mem_cons_of_mem 47 (List.mem_cons_of_mem 47
        ((List.dropWhile_sublist _).mem hb))
  have hf1dec : rest2 = f1 ++ fo.elim [] (fun frag => 35 :: frag) ∧ 35 ∉ f1 := by
    cases fo with
    | none =>
      obtain ⟨h1, h2⟩ := splitOnFirst_none_inv 35 rest2 f1 hfr
      exact ⟨by simp [h1], h1 ▸ h2⟩
    | some frag =>
      obtain ⟨h1, h2⟩ := splitOnFirst_some_inv 35 rest2 f1 frag hfr
      exact ⟨h1, h2⟩
  have hpdec : f1 = p ++ qo.elim [] (fun v => 63 :: v) ∧ 63 ∉ p := by
    cases qo with
    | none =>
      obtain ⟨h1, h2⟩ := splitOnFirst_none_inv 63 f1 p hqr
      exact ⟨by simp [h1], h1 ▸ h2⟩
    | some v =>
      obtain ⟨h1, h2⟩ := splitOnFirst_some_inv 63 f1 p v hqr
      exact ⟨h1, h2⟩
  have hpmem : ∀ b ∈ p, b ∈ rest2 := by
    intro b hb
    rw [hf1dec.1, hpdec.1]
    exact List.mem_append_left _ (List.mem_append_left _ hb)
  have hdecomp : ∃ τ, rest2 = p ++ τ ∧
      (τ = [] ∨ τ.headD 0 = 35 ∨ τ.headD 0 = 63) := by
    refine ⟨qo.elim [] (fun v => 63 :: v) ++ fo.elim [] (fun frag => 35 :: frag),
      ?_, ?_⟩
    · rw [hf1dec.1, hpdec.1, List.append_assoc]
    · cases qo with
      | some v => exact Or.inr (Or.inr rfl)
      | none =>
        cases fo with
        | some frag => exact Or.inr (Or.inl rfl)
        | none => exact Or.inl rfl
  have hp35 : 35 ∉ p := fun hc =>
    hf1dec.2 (hpdec.1 ▸ List.mem_append_left _ hc)
  have hp63 : 63 ∉ p := hpdec.2
  have hcase : (n = [] ∧ rest2 = r) ∨ (p = [] ∨ p.headD 0 = 47) := by
    rcases splitNetloc_inv _ _ _ hnl with ⟨hn0, hr2, -⟩ | ⟨after, hdec, hntake, hrest2⟩
    · exact Or.inl ⟨hn0, hr2⟩
    · right
      obtain ⟨τ, hτ, -⟩ := hdecomp
      rcases dropWhile_head_fail (fun b => !isNetlocDelim b) after with h | h
    
      · left
        have hnil : rest2 = [] := by rw [hrest2, h]
        have : p ++ τ = [] := by rw [← hτ, hnil]
        exact (List.append_eq_nil.mp this).1
      · by_cases hp0 : p = []
        · exact Or.inl hp0
        · right
          have hdelim : isNetlocDelim (rest2.headD 0) = true := by
            rw [hrest2]
            simpa using h
          have hheadp : rest2.headD 0 = p.headD 0 := by
            rw [hτ]
            exact headD_append p τ hp0
          rw [hheadp] at hdelim
          have hm := headD_mem p hp0
          revert hdelim hm
          generalize p.headD 0 = d
          intro hdelim hm
          simp only [isNetlocDelim, Bool.or_eq_true, beq_iff_eq] at hdelim
          rcases hdelim with (h47 | h63) | h35
          · exact h47
          · exact absurd (h63 ▸ hm) hp63
          · exact absurd (h35 ▸ hm) hp35
  have hq256 : ∀ b ∈ qo.getD [], b < 256 := by
    cases qo with
    | none => simp
    | some v =>
      intro b hb
      simp only [Option.getD_some] at hb
      have hbf1 : b ∈ f1 := by
        rw [hpdec.1]
        exact List.mem_append_right _ (List.mem_cons_of_mem 63 hb)
      exact hu1lt b (hrmem _ (hrest2mem _
        (hf1dec.1 ▸ List.mem_append_left _ hbf1)))
  have hkept256 : ∀ kv ∈ (parse_qsl (qo.getD [])).filter
      (fun kv => !isTrackingKey kv.1),
      (∀ b ∈ kv.1, b < 256) ∧ (∀ b ∈ kv.2, b < 256) :=
    fun kv hkv => parse_qsl_lt256 _ hq256 kv (List.mem_filter.mp hkv).1
  have hsplit := urlsplit_components u s r n rest2 f1 p fo qo hsp hnl hfr hqr
  rw [hsplit]
  dsimp only
  refine ⟨⟨?_, ?_, ?_, ?_, ?_, ?_, ?_, ?_, ?_, ?_⟩, hkept256⟩
  · -- scheme_ok
    rcases splitScheme_inv _ _ _ hsp with ⟨hs, -⟩ | ⟨pre, hs, hpre_ne, halpha, hall, -⟩
    · exact Or.inl hs
    · right
      subst hs
      refine ⟨by simp [hpre_ne], ?_, ?_, ?_⟩
      · rw [headD_map_lowerByte pre hpre_ne]
        exact lowerByte_alpha _ halpha
      · rw [List.all_eq_true] at hall ⊢
        intro b hb
        obtain ⟨b0, hb0, rfl⟩ := List.mem_map.mp hb
        exact lowerByte_schemeChar b0 (hall b0 hb0)
      · rw [List.map_map]
        exact List.map_congr_left (fun b _ => lowerByte_idem b)
  · -- netloc_ok
    intro b hb
    obtain ⟨b0, hb0, rfl⟩ := List.mem_map.mp hb
    rcases splitNetloc_inv _ _ _ hnl with ⟨hn0, -, -⟩ | ⟨after, hdec, hn0, -⟩
    · rw [hn0] at hb0
      cases hb0
    · rw [hn0] at hb0
      have hmemr : b0 ∈ r :=
        hdec ▸ List.mem_cons_of_mem 47 (List.mem_cons_of_mem 47
          ((List.takeWhile_sublist _).mem hb0))
      have hdelim : isNetlocDelim b0 = false := by
        have := List.mem_takeWhile_imp hb0
        simpa using this
      have hctl := (stripU_mem u b0 (hrmem b0 hmemr)).2
      have hctl2 := lowerByte_not_ctl b0 hctl
      exact ⟨lowerByte_not_delim b0 hdelim, lowerByte_idem b0,
        hctl2.1, hctl2.2.1, hctl2.2.2⟩
  · exact hp35
  · exact hp63
  · exact fun b hb =>
      (stripU_mem u b (hrmem b (hrest2mem b (hpmem b hb)))).2
  · -- path_scheme
    intro hs0 hn0map
    have hn0 : n = [] := List.map_eq_nil_iff.mp hn0map
    rw [hs0] at hsp
    obtain ⟨hr_eq, hnsp⟩ := splitScheme_nil_inv _ _ hsp
    rcases hcase with ⟨-, hrest2⟩ | hcase2
    · intro α β hαβ
      obtain ⟨τ, hτ, -⟩ := hdecomp
      refine hnsp α (β ++ τ) ?_
      rw [← hr_eq, ← hrest2, hτ]
      exact splitOnFirst_append_of_some 58 p α β τ hαβ
    · intro α β hαβ
      rcases hcase2 with hp0 | h47
      · rw [hp0] at hαβ
        simp [splitOnFirst] at hαβ
      · obtain ⟨hpd, -⟩ := splitOnFirst_some_inv 58 p α β hαβ
        by_cases hα : α = []
        · subst hα
          rfl
        · have hpne : p ≠ [] := by
            rw [hpd]
            exact fun hc => hα (List.append_eq_nil.mp hc).1
          have hαhead : α.headD 0 = 47 := by
            rw [← headD_append α (58 :: β) hα, ← hpd, h47]
          have half : isAsciiAlphaB (α.headD 0) = false := by
            rw [hαhead]
            rfl
          show (!α.isEmpty && isAsciiAlphaB (α.headD 0) && α.all isSchemeChar) = false
          rw [half]
          simp
  · -- path_head
    intro hs0 hn0map hpne
    rw [hs0] at hsp
    obtain ⟨hr_eq, -⟩ := splitScheme_nil_inv _ _ hsp
    rcases hcase with ⟨-, hrest2⟩ | hcase2
    · obtain ⟨τ, hτ, -⟩ := hdecomp
      have hhd : (stripU u).headD 0 = p.headD 0 := by
        rw [← hr_eq, ← hrest2, hτ]
        exact headD_append p τ hpne
      rcases stripU_head u with h | h
      · exfalso
        apply hpne
        have : rest2 = [] := by rw [hrest2, hr_eq, h]
        have h2 : p ++ τ = [] := by
          rw [← hτ]
          exact this
        exact (List.append_eq_nil.mp h2).1
      · rw [hhd] at h
        exact h
    · rcases hcase2 with hp0 | h47
      · exact absurd hp0 hpne
      · rw [h47]
        omega
  · -- netloc_path
    intro hnmap
    rcases hcase with ⟨hn0, -⟩ | hcase2
    · exact absurd (show List.map lowerByte n = [] by simp [hn0]) hnmap
    · exact hcase2
  · -- query_ok
    exact fun b hb => urlencodePairs_ok _ hkept256 b hb
  · -- query_fixed
    rw [parse_qsl_urlencodePairs _ hkept256,
      List.filter_eq_self.mpr (fun kv hkv => (List.mem_filter.mp hkv).2)]

/-! ### Re-splitting the reassembled URL -/

/-- The path as `urlunsplit` emits it when it inserts `//`: a non-empty
relative path gets a leading slash. -/
def pathStarA (p : List Nat) : List Nat :=
  if !p.isEmpty && p.headD 0 != 47 then 47 :: p else p

/-- The query suffix `urlunsplit` appends. -/
def qtail (Q : List Nat) : List Nat :=
  if Q.isEmpty then [] else 63 :: Q

/-- The scheme part `urlunsplit` puts in front. -/
def addScheme (s url : List Nat) : List Nat :=
  if !s.isEmpty then s ++ 58 :: url else url

theorem pathStarA_cases (p : List Nat) :
    (pathStarA p = 47 :: p ∧ p ≠ [] ∧ p.headD 0 ≠ 47) ∨
      (pathStarA p = p ∧ (p = [] ∨ p.headD 0 = 47)) := by
  unfold pathStarA
  by_cases h : (!p.isEmpty && p.headD 0 != 47) = true
  · rw [if_pos h]
    simp only [Bool.and_eq_true, Bool.not_eq_true', List.isEmpty_eq_false,
      bne_iff_ne, ne_eq] at h
    exact Or.inl ⟨rfl, h.1, h.2⟩
  · rw [if_neg h]
    simp only [Bool.and_eq_true, Bool.not_eq_true', List.isEmpty_eq_false,
      bne_iff_ne, ne_eq, not_and, not_not] at h
    refine Or.inr ⟨rfl, ?_⟩
    by_cases hp : p = []
    · exact Or.inl hp
    · exact Or.inr (h hp)

theorem pathStarA_fixed (p : List Nat) (h : p = [] ∨ p.headD 0 = 47) :
    pathStarA p = p := by
  unfold pathStarA
  rcases h with h | h
  · subst h
    rfl
  · have h2 : (p.headD 0 != 47) = false := by
      rw [h]
      rfl
    rw [if_neg (by rw [h2, Bool.and_false]; exact Bool.false_ne_true)]

theorem pathStarA_head (p : List Nat) :
    pathStarA p = [] ∨ (pathStarA p).headD 0 = 47 := by
  rcases pathStarA_cases p with ⟨heq, -, -⟩ | ⟨heq, hp⟩
  · right
    rw [heq]
    rfl
  · rcases hp with hp | hp
    · left
      rw [heq, hp]
    · right
      rw [heq]
      exact hp

theorem pathStarA_idem (p : List Nat) : pathStarA (pathStarA p) = pathStarA p :=
  pathStarA_fixed (pathStarA p) (pathStarA_head p).symm.symm

theorem pathStarA_take2 (p : List Nat) (h : p.take 2 ≠ [47, 47]) :
    (pathStarA p).take 2 ≠ [47, 47] := by
  rcases pathStarA_cases p with ⟨heq, hne, hhd⟩ | ⟨heq, -⟩
  · rw [heq]
    cases p with
    | nil => exact absurd rfl hne
    | cons a t =>
      simp only [List.headD_cons] at hhd
      intro hc
      simp only [List.take_succ_cons, List.cons.injEq] at hc
      exact hhd hc.2.1
  · rw [heq]
    exact h

theorem pathStarA_mem (p : List Nat) (b : Nat) (hb : b ∈ pathStarA p) :
    b = 47 ∨ b ∈ p := by
  rcases pathStarA_cases p with ⟨heq, -, -⟩ | ⟨heq, -⟩
  · rw [heq] at hb
    rcases List.mem_cons.mp hb with hb | hb
    · exact Or.inl hb
    · exact Or.inr hb
  · rw [heq] at hb
    exact Or.inr hb

theorem qtail_head (Q : List Nat) : qtail Q = [] ∨ (qtail Q).headD 0 = 63 := by
  unfold qtail
  by_cases h : Q.isEmpty
  · rw [if_pos h]
    exact Or.inl rfl
  · rw [if_neg h]
    exact Or.inr rfl

theorem qtail_mem (Q : List Nat) (b : Nat) (hb : b ∈ qtail Q) :
    b = 63 ∨ b ∈ Q := by
  unfold qtail at hb
  by_cases h : Q.isEmpty
  · rw [if_pos h] at hb
    cases hb
  · rw [if_neg h] at hb
    rcases List.mem_cons.mp hb with hb | hb
    · exact Or.inl hb
    · exact Or.inr hb

theorem mem_addScheme (s url : List Nat) (b : Nat) (hb : b ∈ addScheme s url) :
    b ∈ s ∨ b = 58 ∨ b ∈ url := by
  unfold addScheme at hb
  by_cases h : s.isEmpty
  · rw [show (!s.isEmpty) = false by simp [h], if_neg (by simp)] at hb
    exact Or.inr (Or.inr hb)
  · rw [show (!s.isEmpty) = true by simp [h], if_pos rfl] at hb
    rcases List.mem_append.mp hb with hb | hb
    · exact Or.inl hb
    · rcases List.mem_cons.mp hb with hb | hb
      · exact Or.inr (Or.inl hb)
      · exact Or.inr (Or.inr hb)

theorem urlunsplit_eq_A (s n p Q : List Nat)
    (hc : (!n.isEmpty || (!s.isEmpty && uses_netloc.contains s &&
      p.take 2 != [47, 47])) = true) :
    urlunsplit ⟨s, n, p, Q, []⟩ =
      addScheme s (47 :: 47 :: (n ++ pathStarA p)) ++ qtail Q := by
  simp at hc
  by_cases hq : Q.isEmpty <;>
    simp [urlunsplit, addScheme, qtail, pathStarA, hc, hq]

theorem urlunsplit_eq_B (s n p Q : List Nat)
    (hc : (!n.isEmpty || (!s.isEmpty && uses_netloc.contains s &&
      p.take 2 != [47, 47])) = false) :
    urlunsplit ⟨s, n, p, Q, []⟩ = addScheme s p ++ qtail Q := by
  rw [Bool.or_eq_false_iff] at hc
  obtain ⟨hn, hrest⟩ := hc
  have hn0 : n = [] := by simpa using hn
  subst hn0
  rw [Bool.and_eq_false_iff, Bool.and_eq_false_iff] at hrest
  rcases hrest with (hs | hcont) | htake
  · have hs0 : s = [] := by simpa using hs
    subst hs0
    by_cases hq : Q.isEmpty <;> simp [urlunsplit, addScheme, qtail, hq]
  · have hc2 : s ∉ uses_netloc := by simpa using hcont
    by_cases hq : Q.isEmpty <;> simp [urlunsplit, addScheme, qtail, hq, hc2]
  · have ht2 : List.take 2 p = [47, 47] := by simpa using htake
    by_cases hq : Q.isEmpty <;> simp [urlunsplit, addScheme, qtail, hq, ht2]

theorem stripU_id (l : List Nat) (hctl : ∀ b ∈ l, b ≠ 9 ∧ b ≠ 10 ∧ b ≠ 13)
    (hh : l = [] ∨ 32 < l.headD 0) : stripU l = l := by
  unfold stripU
  rcases hh with h | h
  · subst h
    rfl
  · cases l with
    | nil => rfl
    | cons b bs =>
      simp only [List.headD_cons] at h
      rw [List.dropWhile_cons_of_neg (by simp only [decide_eq_true_eq]; omega)]
      refine List.filter_eq_self.mpr (fun x hx => ?_)
      have hx3 := hctl x hx
      simp only [Bool.not_eq_eq_eq_not, Bool.not_true, Bool.or_eq_false_iff,
        beq_eq_false_iff_ne, ne_eq]
      exact ⟨⟨hx3.1, hx3.2.1⟩, hx3.2.2⟩

theorem resplit_A (s n p Q : List Nat) (H : CanonicalParts s n p Q)
    (hc : (!n.isEmpty || (!s.isEmpty && uses_netloc.contains s &&
      p.take 2 != [47, 47])) = true) :
    urlsplit (urlunsplit ⟨s, n, p, Q, []⟩) = ⟨s, n, pathStarA p, Q, []⟩ ∧
      urlunsplit ⟨s, n, pathStarA p, Q, []⟩ = urlunsplit ⟨s, n, p, Q, []⟩ := by
  have hQspec := fun b hb => goodQueryByte_spec b (H.query_ok b hb)
  have hq35 : (35 : Nat) ∉ Q := fun hm => (hQspec _ hm).2.1 rfl
  have hq63 : (63 : Nat) ∉ Q := fun hm => (hQspec _ hm).2.2.2.2.1 rfl
  have hq58 : (58 : Nat) ∉ Q := fun hm => (hQspec _ hm).2.2.2.1 rfl
  have hqt35 : (35 : Nat) ∉ qtail Q := fun hm => by
    rcases qtail_mem Q 35 hm with h | h
    · omega
    · exact hq35 h
  have hps35 : (35 : Nat) ∉ pathStarA p := fun hm => by
    rcases pathStarA_mem p 35 hm with h | h
    · omega
    · exact H.path_35 h
  have hps63 : (63 : Nat) ∉ pathStarA p := fun hm => by
    rcases pathStarA_mem p 63 hm with h | h
    · omega
    · exact H.path_63 h
  have hn_delim : ∀ b ∈ n, isNetlocDelim b = false := fun b hb => (H.netloc_ok b hb).1
  have hs_chars : ∀ b ∈ s, isSchemeChar b = true := by
    rcases H.scheme_ok with h | ⟨-, -, hall, -⟩
    · subst h
      intro b hb
      cases hb
    · exact fun b hb => List.all_eq_true.mp hall b hb
  have h58s : (58 : Nat) ∉ s := fun hm => (schemeChar_spec _ (hs_chars _ hm)).1 rfl
  have hctl_c : ∀ b ∈ addScheme s (47 :: 47 :: (n ++ pathStarA p)) ++ qtail Q,
      b ≠ 9 ∧ b ≠ 10 ∧ b ≠ 13 := by
    intro b hb
    rcases List.mem_append.mp hb with hb | hb
    · rcases mem_addScheme _ _ _ hb with hb | hb | hb
      · have hsc := schemeChar_spec _ (hs_chars _ hb)
        exact ⟨hsc.2.1, hsc.2.2.1, hsc.2.2.2.1⟩
      · omega
      · rcases List.mem_cons.mp hb with hb | hb
        · omega
        · rcases List.mem_cons.mp hb with hb | hb
          · omega
          · rcases List.mem_append.mp hb with hb | hb
            · have hbn := H.netloc_ok _ hb
              exact ⟨hbn.2.2.1, hbn.2.2.2.1, hbn.2.2.2.2⟩
            · rcases pathStarA_mem _ _ hb with hb | hb
              · omega
              · exact H.path_ctl _ hb
    · rcases qtail_mem _ _ hb with hb | hb
      · omega
      · exact (hQspec _ hb).2.2.2.2.2
  have hhead_c : addScheme s (47 :: 47 :: (n ++ pathStarA p)) ++ qtail Q = [] ∨
      32 < (addScheme s (47 :: 47 :: (n ++ pathStarA p)) ++ qtail Q).headD 0 := by
    right
    rcases H.scheme_ok with hs0 | ⟨hsne, halpha, -, -⟩
    · subst hs0
      rw [show addScheme [] (47 :: 47 :: (n ++ pathStarA p)) =
        47 :: 47 :: (n ++ pathStarA p) from rfl]
      rw [List.cons_append, List.headD_cons]
      omega
    · rw [show addScheme s (47 :: 47 :: (n ++ pathStarA p)) =
          s ++ 58 :: (47 :: 47 :: (n ++ pathStarA p)) by
        unfold addScheme
        rw [if_pos (by simpa using hsne)]]
      rw [List.append_assoc, headD_append s _ hsne]
      exact alpha_gt32 _ halpha
  have hstrip := stripU_id _ hctl_c hhead_c
  have hsch : splitScheme (addScheme s (47 :: 47 :: (n ++ pathStarA p)) ++ qtail Q) =
      (s, (47 :: 47 :: (n ++ pathStarA p)) ++ qtail Q) := by
    rcases H.scheme_ok with hs0 | ⟨hsne, halpha, hall, hmap⟩
    · subst hs0
      rw [show addScheme [] (47 :: 47 :: (n ++ pathStarA p)) =
        47 :: 47 :: (n ++ pathStarA p) from rfl]
      exact splitScheme_not_alpha _ (by rw [List.cons_append, List.headD_cons]; rfl)
    · rw [show addScheme s (47 :: 47 :: (n ++ pathStarA p)) =
          s ++ 58 :: (47 :: 47 :: (n ++ pathStarA p)) by
        unfold addScheme
        rw [if_pos (by simpa using hsne)]]
      rw [List.append_assoc, List.cons_append]
      rw [splitScheme_guard_true s _ hsne halpha hall h58s, hmap]
  have hnl : splitNetloc ((47 :: 47 :: (n ++ pathStarA p)) ++ qtail Q) =
      (n, pathStarA p ++ qtail Q) := by
    rw [List.cons_append, List.cons_append, List.append_assoc]
    refine splitNetloc_hit n (pathStarA p ++ qtail Q) hn_delim ?_
    rcases pathStarA_head p with hps | hps
    · rw [hps, List.nil_append]
      rcases qtail_head Q with hqt | hqt
      · exact Or.inl hqt
      · right
        rw [hqt]
        rfl
    · have hpsne : pathStarA p ≠ [] := by
        intro h0
        rw [h0] at hps
        cases hps
      right
      rw [headD_append _ _ hpsne, hps]
      rfl
  have hfr : splitOnFirst 35 (pathStarA p ++ qtail Q) =
      (pathStarA p ++ qtail Q, none) := by
    refine splitOnFirst_of_not_mem 35 _ (fun hm => ?_)
    rcases List.mem_append.mp hm with hm | hm
    · exact hps35 hm
    · exact hqt35 hm
  constructor
  · rw [urlunsplit_eq_A s n p Q hc]
    by_cases hq : Q.isEmpty
    · have hq0 : Q = [] := by simpa using hq
      have hqr : splitOnFirst 63 (pathStarA p ++ qtail Q) = (pathStarA p, none) := by
        rw [hq0, show qtail [] = [] from rfl, List.append_nil]
        exact splitOnFirst_of_not_mem 63 _ hps63
      have := urlsplit_components
        (addScheme s (47 :: 47 :: (n ++ pathStarA p)) ++ qtail Q)
        s ((47 :: 47 :: (n ++ pathStarA p)) ++ qtail Q) n
        (pathStarA p ++ qtail Q) (pathStarA p ++ qtail Q) (pathStarA p)
        none none (by rw [hstrip]; exact hsch) hnl hfr hqr
      rw [this, hq0]
      rfl
    · have hqne : Q ≠ [] := by simpa using hq
      have hqr : splitOnFirst 63 (pathStarA p ++ qtail Q) = (pathStarA p, some Q) := by
        rw [show qtail Q = 63 :: Q by unfold qtail; rw [if_neg (by simpa using hqne)]]
        exact splitOnFirst_append_sep 63 _ _ hps63
      have := urlsplit_components
        (addScheme s (47 :: 47 :: (n ++ pathStarA p)) ++ qtail Q)
        s ((47 :: 47 :: (n ++ pathStarA p)) ++ qtail Q) n
        (pathStarA p ++ qtail Q) (pathStarA p ++ qtail Q) (pathStarA p)
        none (some Q) (by rw [hstrip]; exact hsch) hnl hfr hqr
      rw [this]
      rfl
  · have hc' : (!n.isEmpty || (!s.isEmpty && uses_netloc.contains s &&
        (pathStarA p).take 2 != [47, 47])) = true := by
      rw [Bool.or_eq_true] at hc
      rcases hc with h | h
      · rw [Bool.or_eq_true]
        exact Or.inl h
      · rw [Bool.or_eq_true]
        right
        rw [Bool.and_eq_true] at h
        obtain ⟨h12, h3⟩ := h
        rw [Bool.and_eq_true]
        refine ⟨h12, ?_⟩
        rw [bne_iff_ne] at h3 ⊢
        exact pathStarA_take2 p h3
    rw [urlunsplit_eq_A s n (pathStarA p) Q hc', urlunsplit_eq_A s n p Q hc,
      pathStarA_idem]

theorem take2_append_qtail (p Q : List Nat) (h : p.take 2 ≠ [47, 47]) :
    (p ++ qtail Q).take 2 ≠ [47, 47] := by
  rcases qtail_head Q with hqt | hqt
  · rw [hqt, List.append_nil]
    exact h
  · cases p with
    | nil =>
      rw [List.nil_append]
      cases hq : qtail Q with
      | nil => simp
      | cons a t =>
        rw [hq] at hqt
        simp only [List.headD_cons] at hqt
        subst hqt
        intro hcon
        rcases t with - | ⟨b, t2⟩ <;> simp_all
    | cons a as =>
      cases as with
      | nil =>
        cases hq : qtail Q with
        | nil => simp
        | cons c t =>
          rw [hq] at hqt
          simp only [List.headD_cons] at hqt
          subst hqt
          intro hcon
          simp only [List.cons_append, List.nil_append, List.take_succ_cons,
            List.cons.injEq] at hcon
          omega
      | cons b bs =>
        intro hcon
        simp only [List.cons_append, List.take_succ_cons, List.cons.injEq] at hcon
        exact h (by simp [hcon.1, hcon.2.1])

theorem resplit_B (s n p Q : List Nat) (H : CanonicalParts s n p Q)
    (hc : (!n.isEmpty || (!s.isEmpty && uses_netloc.contains s &&
      p.take 2 != [47, 47])) = false)
    (hp2 : p.take 2 ≠ [47, 47]) :
    urlsplit (urlunsplit ⟨s, n, p, Q, []⟩) = ⟨s, n, p, Q, []⟩ := by
  rw [Bool.or_eq_false_iff] at hc
  have hn0 : n = [] := by simpa using hc.1
  subst hn0
  have hQspec := fun b hb => goodQueryByte_spec b (H.query_ok b hb)
  have hq35 : (35 : Nat) ∉ Q := fun hm => (hQspec _ hm).2.1 rfl
  have hq63 : (63 : Nat) ∉ Q := fun hm => (hQspec _ hm).2.2.2.2.1 rfl
  have hq58 : (58 : Nat) ∉ Q := fun hm => (hQspec _ hm).2.2.2.1 rfl
  have hqt35 : (35 : Nat) ∉ qtail Q := fun hm => by
    rcases qtail_mem Q 35 hm with h | h
    · omega
    · exact hq35 h
  have hqt58 : (58 : Nat) ∉ qtail Q := fun hm => by
    rcases qtail_mem Q 58 hm with h | h
    · omega
    · exact hq58 h
  have hs_chars : ∀ b ∈ s, isSchemeChar b = true := by
    rcases H.scheme_ok with h | ⟨-, -, hall, -⟩
    · subst h
      intro b hb
      cases hb
    · exact fun b hb => List.all_eq_true.mp hall b hb
  have h58s : (58 : Nat) ∉ s := fun hm => (schemeChar_spec _ (hs_chars _ hm)).1 rfl
  have hctl_c : ∀ b ∈ addScheme s p ++ qtail Q, b ≠ 9 ∧ b ≠ 10 ∧ b ≠ 13 := by
    intro b hb
    rcases List.mem_append.mp hb with hb | hb
    · rcases mem_addScheme _ _ _ hb with hb | hb | hb
      · have hsc := schemeChar_spec _ (hs_chars _ hb)
        exact ⟨hsc.2.1, hsc.2.2.1, hsc.2.2.2.1⟩
      · omega
      · exact H.path_ctl _ hb
    · rcases qtail_mem _ _ hb with hb | hb
      · omega
      · exact (hQspec _ hb).2.2.2.2.2
  have hhead_c : addScheme s p ++ qtail Q = [] ∨
      32 < (addScheme s p ++ qtail Q).headD 0 := by
    rcases H.scheme_ok with hs0 | ⟨hsne, halpha, -, -⟩
    · subst hs0
      rw [show addScheme [] p = p from rfl]
      by_cases hp0 : p = []
      · subst hp0
        rw [List.nil_append]
        rcases qtail_head Q with hqt | hqt
        · exact Or.inl hqt
        · by_cases hqn : qtail Q = []
          · exact Or.inl hqn
          · right
            rw [hqt]
            omega
      · right
        rw [headD_append p _ hp0]
        exact H.path_head rfl rfl hp0
    · right
      rw [show addScheme s p = s ++ 58 :: p by
        unfold addScheme
        rw [if_pos (by simpa using hsne)]]
      rw [List.append_assoc, headD_append s _ hsne]
      exact alpha_gt32 _ halpha
  have hstrip := stripU_id _ hctl_c hhead_c
  have hsch : splitScheme (addScheme s p ++ qtail Q) = (s, p ++ qtail Q) := by
    rcases H.scheme_ok with hs0 | ⟨hsne, halpha, hall, hmap⟩
    · subst hs0
      rw [show addScheme [] p = p from rfl]
      cases hso : splitOnFirst 58 p with
      | mk α o =>
        cases o with
        | some β =>
          have htr := splitOnFirst_append_of_some 58 p α β (qtail Q) hso
          exact splitScheme_guard_false _ α (β ++ qtail Q) htr
            (H.path_scheme rfl rfl α β hso)
        | none =>
          obtain ⟨-, hnm⟩ := splitOnFirst_none_inv 58 p α hso
          refine splitScheme_not_mem _ (fun hm => ?_)
          rcases List.mem_append.mp hm with hm | hm
          · exact hnm hm
          · exact hqt58 hm
    · rw [show addScheme s p = s ++ 58 :: p by
        unfold addScheme
        rw [if_pos (by simpa using hsne)]]
      rw [List.append_assoc, List.cons_append]
      rw [splitScheme_guard_true s _ hsne halpha hall h58s, hmap]
  have hnl : splitNetloc (p ++ qtail Q) = ([], p ++ qtail Q) :=
    splitNetloc_skip _ (take2_append_qtail p Q hp2)
  have hfr : splitOnFirst 35 (p ++ qtail Q) = (p ++ qtail Q, none) := by
    refine splitOnFirst_of_not_mem 35 _ (fun hm => ?_)
    rcases List.mem_append.mp hm with hm | hm
    · exact H.path_35 hm
    · exact hqt35 hm
  rw [urlunsplit_eq_B s [] p Q (by rw [Bool.or_eq_false_iff]; exact ⟨rfl, hc.2⟩)]
  by_cases hq : Q.isEmpty
  · have hq0 : Q = [] := by simpa using hq
    have hqr : splitOnFirst 63 (p ++ qtail Q) = (p, none) := by
      rw [hq0, show qtail [] = [] from rfl, List.append_nil]
      exact splitOnFirst_of_not_mem 63 _ H.path_63
    have := urlsplit_components (addScheme s p ++ qtail Q)
      s (p ++ qtail Q) [] (p ++ qtail Q) (p ++ qtail Q) p
      none none (by rw [hstrip]; exact hsch) hnl hfr hqr
    rw [this, hq0]
    rfl
  · have hqne : Q ≠ [] := by simpa using hq
    have hqr : splitOnFirst 63 (p ++ qtail Q) = (p, some Q) := by
      rw [show qtail Q = 63 :: Q by unfold qtail; rw [if_neg (by simpa using hqne)]]
      exact splitOnFirst_append_sep 63 _ _ H.path_63
    have := urlsplit_components (addScheme s p ++ qtail Q)
      s (p ++ qtail Q) [] (p ++ qtail Q) (p ++ qtail Q) p
      none (some Q) (by rw [hstrip]; exact hsch) hnl hfr hqr
    rw [this]
    rfl

theorem map_lowerByte_fixed (l : List Nat) (h : ∀ b ∈ l, lowerByte b = b) :
    l.map lowerByte = l := by
  rw [List.map_congr_left h]
  simp

theorem canonicalize_url_eq (url : List Nat) :
    canonicalize_url url = urlunsplit
      ⟨(urlsplit url).scheme, (urlsplit url).netloc.map lowerByte,
        (urlsplit url).path,
        urlencodePairs ((parse_qsl (urlsplit url).query).filter
          (fun kv => !isTrackingKey kv.1)), []⟩ := rfl

theorem canon_fixed_general (s n p Q : List Nat) (H : CanonicalParts s n p Q)
    (hcarve : n ≠ [] ∨ p.take 2 ≠ [47, 47]) :
    ∃ p2, urlsplit (urlunsplit ⟨s, n, p, Q, []⟩) = ⟨s, n, p2, Q, []⟩ ∧
      urlunsplit ⟨s, n, p2, Q, []⟩ = urlunsplit ⟨s, n, p, Q, []⟩ ∧
      (n ≠ [] → p2 = p) := by
  by_cases hc : (!n.isEmpty || (!s.isEmpty && uses_netloc.contains s &&
      p.take 2 != [47, 47])) = true
  · obtain ⟨h1, h2⟩ := resplit_A s n p Q H hc
    exact ⟨pathStarA p, h1, h2, fun hn => pathStarA_fixed p (H.netloc_path hn)⟩
  · rw [Bool.not_eq_true] at hc
    have hn0 : n = [] := by
      rw [Bool.or_eq_false_iff] at hc
      simpa using hc.1
    have hp2 : p.take 2 ≠ [47, 47] := by
      rcases hcarve with h | h
      · exact absurd hn0 h
      · exact h
    exact ⟨p, resplit_B s n p Q H hc hp2, rfl, fun _ => rfl⟩

theorem canonicalize_url_double (u : List Nat) (hu : ∀ b ∈ u, b < 256)
    (hcarve : (urlsplit u).netloc ≠ [] ∨ (urlsplit u).path.take 2 ≠ [47, 47]) :
    canonicalize_url (canonicalize_url u) = canonicalize_url u ∧
    (urlsplit (canonicalize_url u)).scheme = (urlsplit u).scheme ∧
    (urlsplit (canonicalize_url u)).netloc = (urlsplit u).netloc.map lowerByte ∧
    (urlsplit (canonicalize_url u)).fragment = [] ∧
    parse_qsl (urlsplit (canonicalize_url u)).query =
      (parse_qsl (urlsplit u).query).filter (fun kv => !isTrackingKey kv.1) ∧
    ((urlsplit u).netloc ≠ [] →
      (urlsplit (canonicalize_url u)).path = (urlsplit u).path) := by
  obtain ⟨H, hkept⟩ := urlsplit_parts u hu
  have hcarve2 : (urlsplit u).netloc.map lowerByte ≠ [] ∨
      (urlsplit u).path.take 2 ≠ [47, 47] := by
    rcases hcarve with h | h
    · exact Or.inl (by simpa using h)
    · exact Or.inr h
  obtain ⟨p2, hsplit2, hunsplit2, hp2⟩ := canon_fixed_general _ _ _ _ H hcarve2
  have hc1 : canonicalize_url u = urlunsplit ⟨(urlsplit u).scheme,
      (urlsplit u).netloc.map lowerByte, (urlsplit u).path,
      urlencodePairs ((parse_qsl (urlsplit u).query).filter
        (fun kv => !isTrackingKey kv.1)), []⟩ := rfl
  have hsplitc : urlsplit (canonicalize_url u) = ⟨(urlsplit u).scheme,
      (urlsplit u).netloc.map lowerByte, p2,
      urlencodePairs ((parse_qsl (urlsplit u).query).filter
        (fun kv => !isTrackingKey kv.1)), []⟩ := by
    rw [hc1]
    exact hsplit2
  refine ⟨?_, ?_, ?_, ?_, ?_, ?_⟩
  · rw [canonicalize_url_eq (canonicalize_url u), hsplitc]
    dsimp only
    rw [H.query_fixed]
    rw [map_lowerByte_fixed _ (fun b hb => (H.netloc_ok b hb).2.1)]
    rw [hunsplit2, hc1]
  · rw [hsplitc]
  · rw [hsplitc]
  · rw [hsplitc]
  · rw [hsplitc]
    dsimp only
    exact parse_qsl_urlencodePairs _ hkept
  · intro hn
    rw [hsplitc]
    dsimp only
    exact hp2 (by simpa using hn)

/-- C8 (corrected): `canonicalize_url` satisfies the claimed concrete example,
and for every byte-string URL whose parsed netloc is non-empty or whose parsed
path does not begin with `//`, a second application is the identity; moreover
the canonical output's scheme is the input's scheme, its host is the input's
host lowercased, its fragment is empty, its query parses back to exactly the
non-tracking parameters of the input, and (when a netloc is present) its path
is the input's path.  Unrestricted idempotence, as claimed, is false: see
`canonicalize_url_not_idempotent`. -/
theorem canonicalize_url_spec :
    (canonicalize_url (asciiBytes
        "https://Example.com/path?a=1&utm_source=x&fbclid=y#frag") =
      asciiBytes "https://example.com/path?a=1") ∧
    (∀ u, (∀ b ∈ u, b < 256) →
      ((urlsplit u).netloc ≠ [] ∨ (urlsplit u).path.take 2 ≠ [47, 47]) →
      canonicalize_url (canonicalize_url u) = canonicalize_url u ∧
      (urlsplit (canonicalize_url u)).scheme = (urlsplit u).scheme ∧
      (urlsplit (canonicalize_url u)).netloc =
        (urlsplit u).netloc.map lowerByte ∧
      (urlsplit (canonicalize_url u)).fragment = [] ∧
      parse_qsl (urlsplit (canonicalize_url u)).query =
        (parse_qsl (urlsplit u).query).filter (fun kv => !isTrackingKey kv.1) ∧
      ((urlsplit u).netloc ≠ [] →
        (urlsplit (canonicalize_url u)).path = (urlsplit u).path)) :=
  ⟨by decide, fun u hu hcarve => canonicalize_url_double u hu hcarve⟩

/-- Witness for C8: the guarded idempotence applied at a concrete URL. -/
theorem canonicalize_url_spec_witness :
    (∀ b ∈ asciiBytes "https://Example.com/a?x=1&utm_source=t", b < 256) ∧
    ((urlsplit (asciiBytes "https://Example.com/a?x=1&utm_source=t")).netloc ≠
        [] ∨
      (urlsplit (asciiBytes
        "https://Example.com/a?x=1&utm_source=t")).path.take 2 ≠ [47, 47]) ∧
    canonicalize_url (canonicalize_url
        (asciiBytes "https://Example.com/a?x=1&utm_source=t")) =
      canonicalize_url (asciiBytes "https://Example.com/a?x=1&utm_source=t") :=
  ⟨by decide, by decide, (canonicalize_url_spec.2 _ (by decide) (by decide)).1⟩

/-- C8 counterexample: on CPython ≥ 3.11, `urlunsplit` turns a netloc-less URL
whose path starts with `//` into one with a netloc, so the first pass rewrites
`http:////Example.com/path` to `http://Example.com/path` and only the second
pass lowercases the host: `canonicalize_url` is not idempotent. -/
theorem canonicalize_url_not_idempotent :
    canonicalize_url (canonicalize_url
        (asciiBytes "http:////Example.com/path")) ≠
      canonicalize_url (asciiBytes "http:////Example.com/path") ∧
    canonicalize_url (asciiBytes "http:////Example.com/path") =
      asciiBytes "http://Example.com/path" ∧
    canonicalize_url (asciiBytes "http://Example.com/path") =
      asciiBytes "http://example.com/path" := by
  decide
